import Mathlib

/-!
Verification development for the QuantChallenge energy-trading repository.

The embedding models, faithfully to the Python source:

* `apply_daily_ml_strategy` (src/convert_trades.py): the walk-forward loop that,
  for each unique calendar day past a 30-day warm-up, trains a classifier on all
  feature rows dated strictly before the day (skipping the day when fewer than
  100 training rows exist or the day has no feature rows) and scores the day's
  rows into ternary signals; the `pd.concat` of the per-day results raises a
  ValueError when every candidate day was skipped, modeled as `none`.  The
  XGBoost classifier itself (together with the binary labelling of the training
  rows and the recency sample weights, both of which are functions of the
  training rows alone) is abstracted as a parameter
  `fit : List FRow → FRow → ℚ` mapping a training set to a row scorer; tree
  ensemble scoring is deterministic and row-wise (a scored row's probability
  depends on the model and that row's feature columns — `hour` and the
  remaining feature columns `feats` of `FRow`).  The labelling and weighting
  steps are embedded separately as `trainLabels` and `time_weights`.
* `convert_to_trades` (src/convert_trades.py): signal-to-trade conversion.
* `compute_hourly_pnl` (src/task3_report.py): per-hour PnL aggregation.
* `max_drawdown` (src/task2_analysis.py, `run_strategy`): the maximum-drawdown
  statistic over a daily PnL series.

Conventions: calendar dates are integers (day ordinals); timestamps are integers
counting minutes since the Unix epoch (the source data is quarter-hour aligned,
so the seconds component is always zero; Python `timedelta(days=1)` is 1440
minutes and `timedelta(hours=2)` is 120 minutes).  Prices and quantities are
rationals (the float arithmetic performed by the source on them is exact for
every value appearing in the claims).  Python `str(n)` of a nonnegative integer
is embedded as `natChars`, and `datetime.strftime('%Y%m%d_%H%M%S')` as `fmtTs`
(via the standard civil-from-days calendar algorithm).
-/

/-- Decimal digit character, `str(d)` for `d < 10` (codepoint 48 + d). -/
def decDigit (d : Nat) : Char := Char.ofNat (48 + d % 10)

/-- Python `str(n)` for a nonnegative integer: big-endian decimal digits. -/
def natChars (n : Nat) : List Char :=
  if n = 0 then ['0'] else ((Nat.digits 10 n).reverse.map decDigit)

/-- Decimal parser, the left inverse of `natChars` used in uniqueness proofs. -/
def parseNat (cs : List Char) : Nat :=
  cs.foldl (fun a c => 10 * a + (c.toNat - 48)) 0

/-- Two-digit zero-padded field of `strftime` (`%m`, `%d`, `%H`, `%M`, `%S`). -/
def pad2 (n : Nat) : List Char := [decDigit (n / 10), decDigit n]

/-- Four-digit zero-padded field of `strftime` (`%Y`). -/
def pad4 (n : Nat) : List Char :=
  [decDigit (n / 1000), decDigit (n / 100), decDigit (n / 10), decDigit n]

/-- Days-to-civil-date conversion (proleptic Gregorian calendar), the standard
algorithm used by `datetime`: year, month, day from days since 1970-01-01. -/
def civilFromDays (z0 : Int) : Int × Int × Int :=
  let z := z0 + 719468
  let era := z.fdiv 146097
  let doe := (z - era * 146097).toNat
  let yoe := (doe - doe / 1460 + doe / 36524 - doe / 146096) / 365
  let y : Int := (yoe : Int) + era * 400
  let doy := doe - (365 * yoe + yoe / 4 - yoe / 100)
  let mp := (5 * doy + 2) / 153
  let dd := doy - (153 * mp + 2) / 5 + 1
  let m : Int := if mp < 10 then (mp : Int) + 3 else (mp : Int) - 9
  (if m ≤ 2 then y + 1 else y, m, (dd : Int))

/-- `strftime('%Y%m%d_%H%M%S')` of a timestamp counted in minutes since the
epoch (the seconds component of the source timestamps is always zero). -/
def fmtTs (t : Int) : List Char :=
  let days := t.fdiv 1440
  let rem := (t - days * 1440).toNat
  let c := civilFromDays days
  pad4 c.1.toNat ++ pad2 c.2.1.toNat ++ pad2 c.2.2.toNat ++
    '_' :: (pad2 (rem / 60) ++ pad2 (rem % 60) ++ pad2 0)

/-- One feature row of `df_ml` (one quarter-hour observation with its derived
features).  `idx` is the pandas dataframe index of the row; `feats` stands for
the remaining feature columns, consumed only by the classifier. -/
structure FRow where
  date : Int
  hour : Nat
  timestamp : Int
  da_price : ℚ
  id_price_h : ℚ
  spread : ℚ
  idx : Nat
  feats : List ℚ
deriving DecidableEq, Inhabited

/-- A scored row of the results dataframe: the feature row together with the
predicted probability and the derived ternary signal. -/
structure ScoredRow where
  row : FRow
  prob : ℚ
  signal : Int
deriving DecidableEq, Inhabited

/-- Signal derivation from a predicted probability (lines 171-173 of
src/convert_trades.py): 1 (long) when `p > 0.55`, -1 (short) when `p < 0.45`,
else 0 (flat). -/
def signalOf (p : ℚ) : Int :=
  if p > 0.55 then 1 else if p < 0.45 then -1 else 0

/-- Score one test row with a trained model (the `predict_proba` column plus
the signal columns added to `test_data`). -/
def scoreRow (model : FRow → ℚ) (r : FRow) : ScoredRow :=
  { row := r, prob := model r, signal := signalOf (model r) }

/-- `pandas.unique` on a column: deduplication keeping the first occurrence. -/
def dedupFirst (l : List Int) : List Int :=
  l.foldl (fun acc x => if x ∈ acc then acc else acc ++ [x]) []

/-- `min_train_days = 30` (line 134 of src/convert_trades.py). -/
def min_train_days : Nat := 30

/-- Binary labels of the training rows: `(train_data['spread'] > 0)` (line 143
of src/convert_trades.py). -/
def trainLabels (train_data : List FRow) : List Bool :=
  train_data.map (fun r => decide (0 < r.spread))

/-- The per-day walk-forward loop of `apply_daily_ml_strategy` (lines 132-180
of src/convert_trades.py): the concatenation of the scored test frames
appended to `trades_list`.  `fit` abstracts `XGBClassifier(...).fit(X_train,
y_train, sample_weight=time_weights)` followed by row-wise `predict_proba`;
its inputs (features, labels `trainLabels train_data`, and weights
`time_weights train_data.length`) are all functions of `train_data`. -/
def scoredRows (fit : List FRow → FRow → ℚ) (df_ml : List FRow) :
    List ScoredRow :=
  let unique_days := dedupFirst (df_ml.map FRow.date)
  (unique_days.drop min_train_days).flatMap (fun current_day =>
    let train_data := df_ml.filter (fun r => r.date < current_day)
    if train_data.length < 100 then []
    else
      let test_data := df_ml.filter (fun r => r.date == current_day)
      if test_data.length = 0 then []
      else
        let model := fit train_data
        test_data.map (scoreRow model))

/-- `apply_daily_ml_strategy` (lines 132-184 of src/convert_trades.py): the
walk-forward loop followed by `results_df = pd.concat(trades_list,
ignore_index=True)` (line 181).  `pd.concat` raises a ValueError when
`trades_list` is empty, i.e. when every candidate day was skipped; the failure
is modeled as `none`.  Every frame appended to `trades_list` is nonempty (an
empty test set is skipped), so `trades_list` is empty exactly when the
concatenated row list is. -/
def apply_daily_ml_strategy (fit : List FRow → FRow → ℚ) (df_ml : List FRow) :
    Option (List ScoredRow) :=
  if scoredRows fit df_ml = [] then none else some (scoredRows fit df_ml)

/-- Trade side; the database CHECK constraint restricts `side` to these two
values, so it is embedded as an inductive type. -/
inductive Side where
  | buy : Side
  | sell : Side
deriving DecidableEq, Inhabited

/-- One trade record (the dict literals of `convert_to_trades`, also the rows
of the `trades` table). -/
structure Trade where
  trade_id : String
  trader_id : String
  delivery_day : Int
  delivery_hour : Nat
  quantity : ℚ
  price : ℚ
  side : Side
  strategy : String
  timestamp : Int
deriving DecidableEq, Inhabited

/-- The f-string `f"ML_{leg}_{trade_timestamp.strftime('%Y%m%d_%H%M%S')}_{idx}_{side}"`
shared by the four trade-id formats of `convert_to_trades`. -/
def mkTradeId (leg : List Char) (ts : List Char) (idx : Nat) (side : List Char) :
    List Char :=
  'M' :: 'L' :: '_' :: (leg ++ '_' :: ts ++ '_' :: natChars idx ++ '_' :: side)

/-- `position_size = 100` MW (line 191 of src/convert_trades.py). -/
def position_size : ℚ := 100

/-- "Trade 1: BUY at Day-Ahead" of a long signal (lines 209-219). -/
def daBuyTrade (strategy_name : String) (r : ScoredRow) : Trade :=
  let trade_timestamp := r.row.timestamp - 1440
  { trade_id := String.mk (mkTradeId ['D', 'A'] (fmtTs trade_timestamp) r.row.idx
      ['B', 'U', 'Y'])
  , trader_id := "strategy_ml_daily"
  , delivery_day := r.row.date
  , delivery_hour := r.row.hour
  , quantity := position_size
  , price := r.row.da_price
  , side := Side.buy
  , strategy := strategy_name
  , timestamp := trade_timestamp }

/-- "Trade 2: SELL at Intraday" of a long signal (lines 221-232); its execution
timestamp is 2 hours (120 minutes) after the day-ahead leg. -/
def idSellTrade (strategy_name : String) (r : ScoredRow) : Trade :=
  let trade_timestamp := r.row.timestamp - 1440
  { trade_id := String.mk (mkTradeId ['I', 'D'] (fmtTs trade_timestamp) r.row.idx
      ['S', 'E', 'L', 'L'])
  , trader_id := "strategy_ml_daily"
  , delivery_day := r.row.date
  , delivery_hour := r.row.hour
  , quantity := position_size
  , price := r.row.id_price_h
  , side := Side.sell
  , strategy := strategy_name
  , timestamp := trade_timestamp + 120 }

/-- "Trade 1: SELL at Day-Ahead" of a short signal (lines 235-246). -/
def daSellTrade (strategy_name : String) (r : ScoredRow) : Trade :=
  let trade_timestamp := r.row.timestamp - 1440
  { trade_id := String.mk (mkTradeId ['D', 'A'] (fmtTs trade_timestamp) r.row.idx
      ['S', 'E', 'L', 'L'])
  , trader_id := "strategy_ml_daily"
  , delivery_day := r.row.date
  , delivery_hour := r.row.hour
  , quantity := position_size
  , price := r.row.da_price
  , side := Side.sell
  , strategy := strategy_name
  , timestamp := trade_timestamp }

/-- "Trade 2: BUY at Intraday" of a short signal (lines 248-259). -/
def idBuyTrade (strategy_name : String) (r : ScoredRow) : Trade :=
  let trade_timestamp := r.row.timestamp - 1440
  { trade_id := String.mk (mkTradeId ['I', 'D'] (fmtTs trade_timestamp) r.row.idx
      ['B', 'U', 'Y'])
  , trader_id := "strategy_ml_daily"
  , delivery_day := r.row.date
  , delivery_hour := r.row.hour
  , quantity := position_size
  , price := r.row.id_price_h
  , side := Side.buy
  , strategy := strategy_name
  , timestamp := trade_timestamp + 120 }

/-- The loop body of `convert_to_trades`: the trades appended for one signal
row (lines 207-259 of src/convert_trades.py). -/
def tradesForRow (strategy_name : String) (r : ScoredRow) : List Trade :=
  if r.signal = 1 then [daBuyTrade strategy_name r, idSellTrade strategy_name r]
  else if r.signal = -1 then
    [daSellTrade strategy_name r, idBuyTrade strategy_name r]
  else []

/-- `convert_to_trades` (lines 186-262 of src/convert_trades.py): filter the
non-flat signals, then emit the per-row trades in order. -/
def convert_to_trades (df_results : List ScoredRow) (strategy_name : String) :
    List Trade :=
  (df_results.filter (fun r => r.signal != 0)).flatMap (tradesForRow strategy_name)

/-- The per-hour accumulator of `compute_hourly_pnl` (src/task3_report.py,
lines 44-53). -/
structure HourData where
  num_trades : Nat
  buy_da_mw : ℚ
  sell_da_mw : ℚ
  buy_ida_mw : ℚ
  sell_ida_mw : ℚ
  pnl_eur : ℚ
deriving DecidableEq, Inhabited

/-- The zero-initialized entry of an hour (lines 45-53). -/
def emptyHour : HourData :=
  { num_trades := 0, buy_da_mw := 0, sell_da_mw := 0, buy_ida_mw := 0
  , sell_ida_mw := 0, pnl_eur := 0 }

/-- `'_DA_' in trade_id` (line 61 of src/task3_report.py). -/
def hasDA (trade_id : String) : Bool :=
  decide (List.IsInfix ['_', 'D', 'A', '_'] trade_id.data)

/-- `'_ID_' in trade_id` (line 62 of src/task3_report.py). -/
def hasID (trade_id : String) : Bool :=
  decide (List.IsInfix ['_', 'I', 'D', '_'] trade_id.data)

/-- The per-trade update of one hour's accumulator (lines 56-75 of
src/task3_report.py). -/
def updateHour (hd : HourData) (quantity price : ℚ) (side : Side)
    (trade_id : String) : HourData :=
  let hd1 := { hd with num_trades := hd.num_trades + 1 }
  let is_da := hasDA trade_id
  let is_ida := hasID trade_id
  match side with
  | Side.buy =>
      let hd2 :=
        if is_da then { hd1 with buy_da_mw := hd1.buy_da_mw + quantity }
        else if is_ida then { hd1 with buy_ida_mw := hd1.buy_ida_mw + quantity }
        else hd1
      { hd2 with pnl_eur := hd2.pnl_eur - quantity * price }
  | Side.sell =>
      let hd2 :=
        if is_da then { hd1 with sell_da_mw := hd1.sell_da_mw + quantity }
        else if is_ida then { hd1 with sell_ida_mw := hd1.sell_ida_mw + quantity }
        else hd1
      { hd2 with pnl_eur := hd2.pnl_eur + quantity * price }

/-- Processing one fetched row: `hourly_data[delivery_hour]` raises a KeyError
when the hour is outside 0..23 (the dict is initialized for hours 0-23 only),
embedded as `none`. -/
def processTrade (tbl : List HourData) (t : Trade) : Option (List HourData) :=
  if t.delivery_hour < 24 then
    some (tbl.set t.delivery_hour
      (updateHour (tbl.getD t.delivery_hour emptyHour) t.quantity t.price t.side
        t.trade_id))
  else none

/-- `compute_hourly_pnl` (lines 15-78 of src/task3_report.py): select the
trader's trades for the delivery day ordered by delivery hour (the SQL query),
initialize all 24 hours to zero, and fold the per-trade update.  The database
content is modeled as the list `db`; `delivery_day` is compared as the date
itself (the ISO string stored in the database is an injective encoding of it). -/
def compute_hourly_pnl (trader_id : String) (delivery_day : Int)
    (db : List Trade) : Option (List HourData) :=
  let rows := (db.filter
      (fun t => t.trader_id == trader_id && t.delivery_day == delivery_day)).mergeSort
      (fun a b => a.delivery_hour ≤ b.delivery_hour)
  rows.foldlM processTrade (List.replicate 24 emptyHour)

/-- `Series.cumsum` (running sums). -/
def cumsumAux (acc : ℚ) : List ℚ → List ℚ
  | [] => []
  | x :: t => (acc + x) :: cumsumAux (acc + x) t

/-- `daily_pnl.cumsum()` of src/task2_analysis.py line 156. -/
def cumsum (l : List ℚ) : List ℚ := cumsumAux 0 l

/-- `Series.cummax` (running maxima) continued from a current maximum `m`. -/
def cummaxAux (m : ℚ) : List ℚ → List ℚ
  | [] => []
  | x :: t => max m x :: cummaxAux (max m x) t

/-- `.cummax()` of src/task2_analysis.py line 156. -/
def cummax : List ℚ → List ℚ
  | [] => []
  | x :: t => x :: cummaxAux x t

/-- `(daily_pnl.cumsum() - daily_pnl.cumsum().cummax()).min()` (line 156 of
src/task2_analysis.py); `none` for an empty series (pandas yields NaN there). -/
def max_drawdown (daily_pnl : List ℚ) : Option ℚ :=
  (List.zipWith (fun a b => a - b) (cumsum daily_pnl)
    (cummax (cumsum daily_pnl))).min?

/-- Modelled from the spec: `min_t(cumsum[t] - running_max(cumsum)[0..t])`, the
maximum-drawdown formula stated in section 4.4, with the running maximum taken
over the prefix ending at `t`.  Used to compare the source expression against
the spec's words. -/
def spec_max_drawdown (l : List ℚ) : Option ℚ :=
  ((List.range (cumsum l).length).map
    (fun t => (cumsum l).getD t 0 - (((cumsum l).take (t + 1)).max?.getD 0))).min?

/-- `np.exp(decay * np.arange(n_samples))` with `decay = 0.01` (lines 146-148
of src/convert_trades.py). -/
noncomputable def np_time_weights (n_samples : Nat) : List ℝ :=
  (List.range n_samples).map (fun i : Nat => Real.exp (0.01 * (i : ℝ)))

/-- `array.min()` of a nonempty numpy array (junk value 0 for the empty one,
which the source never produces here). -/
noncomputable def listMinR : List ℝ → ℝ
  | [] => 0
  | x :: t => t.foldl min x

/-- `array.max()` of a nonempty numpy array. -/
noncomputable def listMaxR : List ℝ → ℝ
  | [] => 0
  | x :: t => t.foldl max x

/-- `time_weights = 0.5 + 0.5 * (w - w.min()) / (w.max() - w.min())` (line 149
of src/convert_trades.py), over the raw exponential weights `w`. -/
noncomputable def time_weights (n_samples : Nat) : List ℝ :=
  let w := np_time_weights n_samples
  w.map (fun x => 0.5 + 0.5 * (x - listMinR w) / (listMaxR w - listMinR w))

/-! ### Concrete example rows used by witnesses and counterexamples -/

/-- A concrete long-signal row (probability 0.6 on day 5, hour 12). -/
def exLongRow : ScoredRow :=
  { row := { date := 5, hour := 12, timestamp := 1440 * 5 + 720, da_price := 50
           , id_price_h := 60, spread := 10, idx := 7, feats := [] }
  , prob := 0.6, signal := 1 }

/-- A concrete short-signal row (probability 0.4 on day 5, hour 13). -/
def exShortRow : ScoredRow :=
  { row := { date := 5, hour := 13, timestamp := 1440 * 5 + 780, da_price := 55
           , id_price_h := 45, spread := -10, idx := 11, feats := [] }
  , prob := 0.4, signal := -1 }

/-- A concrete flat row. -/
def exFlatRow : ScoredRow :=
  { row := { date := 5, hour := 14, timestamp := 1440 * 5 + 840, da_price := 52
           , id_price_h := 52, spread := 0, idx := 13, feats := [] }
  , prob := 0.5, signal := 0 }

/-! ### C4: signal trichotomy -/

/-- C4: for every scored row the derived direction is long (1) exactly when the
predicted probability is strictly greater than 0.55, short (-1) exactly when it
is strictly less than 0.45, and flat (0) otherwise; probability 0.56 yields
long, 0.44 yields short, and 0.50, 0.55 and 0.45 all yield flat. -/
theorem signal_trichotomy :
    (∀ p : ℚ,
      (signalOf p = 1 ↔ 0.55 < p) ∧
      (signalOf p = -1 ↔ p < 0.45) ∧
      (signalOf p = 0 ↔ 0.45 ≤ p ∧ p ≤ 0.55)) ∧
    signalOf 0.56 = 1 ∧ signalOf 0.44 = -1 ∧ signalOf 0.5 = 0 ∧
    signalOf 0.55 = 0 ∧ signalOf 0.45 = 0 := by
  refine ⟨fun p => ?_, by norm_num [signalOf], by norm_num [signalOf],
    by norm_num [signalOf], by norm_num [signalOf], by norm_num [signalOf]⟩
  unfold signalOf
  split_ifs with h1 h2
  · refine ⟨⟨fun _ => h1, fun _ => rfl⟩, ⟨fun h => absurd h (by decide), ?_⟩,
      ⟨fun h => absurd h (by decide), ?_⟩⟩
    · intro h; linarith
    · rintro ⟨-, h⟩; linarith
  · refine ⟨⟨fun h => absurd h (by decide), fun h => absurd h h1⟩,
      ⟨fun _ => h2, fun _ => rfl⟩, ⟨fun h => absurd h (by decide), ?_⟩⟩
    rintro ⟨h, -⟩; linarith
  · push_neg at h1 h2
    exact ⟨⟨fun h => absurd h (by decide), fun h => absurd h (not_lt.2 h1)⟩,
      ⟨fun h => absurd h (by decide), fun h => absurd h (not_lt.2 h2)⟩,
      ⟨fun _ => ⟨h2, h1⟩, fun _ => rfl⟩⟩

/-! ### C2: trade pairing -/

/-- C2: every non-flat signal row yields exactly two trade records sharing the
signal's delivery day, delivery hour, strategy and the fixed position size as
quantity, with sides and prices fixed by the direction table (long: buy
day-ahead at `da_price`, sell intraday at `id_price_h`; short: sell day-ahead,
buy intraday); a flat signal yields no trade, and `convert_to_trades` emits
exactly the per-row trades of the non-flat rows in order. -/
theorem trade_pairing :
    (∀ (strat : String) (r : ScoredRow), (r.signal = 1 ∨ r.signal = -1) →
      ∃ t1 t2, tradesForRow strat r = [t1, t2] ∧
        t1.delivery_day = r.row.date ∧ t2.delivery_day = r.row.date ∧
        t1.delivery_hour = r.row.hour ∧ t2.delivery_hour = r.row.hour ∧
        t1.strategy = strat ∧ t2.strategy = strat ∧
        t1.quantity = position_size ∧ t2.quantity = position_size ∧
        (r.signal = 1 → t1.side = Side.buy ∧ t1.price = r.row.da_price ∧
          t2.side = Side.sell ∧ t2.price = r.row.id_price_h) ∧
        (r.signal = -1 → t1.side = Side.sell ∧ t1.price = r.row.da_price ∧
          t2.side = Side.buy ∧ t2.price = r.row.id_price_h)) ∧
    (∀ (strat : String) (r : ScoredRow), r.signal = 0 →
      tradesForRow strat r = []) ∧
    (∀ (rows : List ScoredRow) (strat : String),
      convert_to_trades rows strat =
        (rows.filter (fun r => r.signal != 0)).flatMap (tradesForRow strat)) := by
  refine ⟨fun strat r h => ?_, fun strat r h => by simp [tradesForRow, h],
    fun rows strat => rfl⟩
  rcases h with h | h
  · refine ⟨daBuyTrade strat r, idSellTrade strat r, by simp [tradesForRow, h],
      rfl, rfl, rfl, rfl, rfl, rfl, rfl, rfl,
      fun _ => ⟨rfl, rfl, rfl, rfl⟩, fun h' => absurd (h.symm.trans h') (by decide)⟩
  · refine ⟨daSellTrade strat r, idBuyTrade strat r, by simp [tradesForRow, h],
      rfl, rfl, rfl, rfl, rfl, rfl, rfl, rfl,
      fun h' => absurd (h.symm.trans h') (by decide),
      fun _ => ⟨rfl, rfl, rfl, rfl⟩⟩

/-- Witness for C2 at the concrete long row `exLongRow`. -/
theorem trade_pairing_witness :
    (exLongRow.signal = 1 ∨ exLongRow.signal = -1) ∧
    (∃ t1 t2, tradesForRow "ML_Daily_XGBoost" exLongRow = [t1, t2] ∧
        t1.delivery_day = exLongRow.row.date ∧ t2.delivery_day = exLongRow.row.date ∧
        t1.delivery_hour = exLongRow.row.hour ∧ t2.delivery_hour = exLongRow.row.hour ∧
        t1.strategy = "ML_Daily_XGBoost" ∧ t2.strategy = "ML_Daily_XGBoost" ∧
        t1.quantity = position_size ∧ t2.quantity = position_size ∧
        (exLongRow.signal = 1 → t1.side = Side.buy ∧ t1.price = exLongRow.row.da_price ∧
          t2.side = Side.sell ∧ t2.price = exLongRow.row.id_price_h) ∧
        (exLongRow.signal = -1 → t1.side = Side.sell ∧ t1.price = exLongRow.row.da_price ∧
          t2.side = Side.buy ∧ t2.price = exLongRow.row.id_price_h)) :=
  ⟨Or.inl rfl, trade_pairing.1 "ML_Daily_XGBoost" exLongRow (Or.inl rfl)⟩

/-! ### C3: timing of the two legs (corrected) -/

/-- C3 (amended): for every non-flat signal the intraday leg's execution
timestamp equals the day-ahead leg's execution timestamp plus exactly 2 hours
(120 minutes), and the day-ahead leg's execution timestamp is exactly 1 day
(1440 minutes) before the source observation's timestamp; the intraday leg is
therefore 22 hours, not 1 day, before the observation's timestamp. -/
theorem trade_timing :
    ∀ (strat : String) (r : ScoredRow), (r.signal = 1 ∨ r.signal = -1) →
      ∃ t1 t2, tradesForRow strat r = [t1, t2] ∧
        t2.timestamp = t1.timestamp + 120 ∧
        t1.timestamp = r.row.timestamp - 1440 ∧
        t2.timestamp = r.row.timestamp - 1440 + 120 := by
  intro strat r h
  rcases h with h | h
  · exact ⟨daBuyTrade strat r, idSellTrade strat r, by simp [tradesForRow, h],
      rfl, rfl, rfl⟩
  · exact ⟨daSellTrade strat r, idBuyTrade strat r, by simp [tradesForRow, h],
      rfl, rfl, rfl⟩

/-- Counterexample for C3 as stated: for the concrete long row the intraday
(second) leg's execution timestamp is not 1 day before the observation's
timestamp (it is 22 hours before it). -/
theorem trade_timing_cex :
    exLongRow.signal = 1 ∧
    (tradesForRow "ML_Daily_XGBoost" exLongRow).length = 2 ∧
    ((tradesForRow "ML_Daily_XGBoost" exLongRow).getD 1 default).timestamp ≠
      exLongRow.row.timestamp - 1440 := by
  refine ⟨rfl, rfl, ?_⟩
  decide

/-- Witness for C3 (amended) at the concrete short row `exShortRow`. -/
theorem trade_timing_witness :
    (exShortRow.signal = 1 ∨ exShortRow.signal = -1) ∧
    (∃ t1 t2, tradesForRow "ML_Daily_XGBoost" exShortRow = [t1, t2] ∧
        t2.timestamp = t1.timestamp + 120 ∧
        t1.timestamp = exShortRow.row.timestamp - 1440 ∧
        t2.timestamp = exShortRow.row.timestamp - 1440 + 120) :=
  ⟨Or.inr rfl, trade_timing "ML_Daily_XGBoost" exShortRow (Or.inr rfl)⟩

/-! ### C7: maximum drawdown -/

theorem getD_lt {α : Type} (L : List α) (t : Nat) (d : α) (h : t < L.length) :
    L.getD t d = L[t] := by
  rw [List.getD_eq_getElem?_getD, List.getElem?_eq_getElem h]
  rfl

theorem length_cumsumAux (acc : ℚ) (l : List ℚ) :
    (cumsumAux acc l).length = l.length := by
  induction l generalizing acc with
  | nil => rfl
  | cons x t ih => simp [cumsumAux, ih]

theorem length_cumsum (l : List ℚ) : (cumsum l).length = l.length :=
  length_cumsumAux 0 l

theorem length_cummaxAux (m : ℚ) (l : List ℚ) :
    (cummaxAux m l).length = l.length := by
  induction l generalizing m with
  | nil => rfl
  | cons x t ih => simp [cummaxAux, ih]

theorem length_cummax (l : List ℚ) : (cummax l).length = l.length := by
  cases l with
  | nil => rfl
  | cons x t => simp [cummax, length_cummaxAux]

theorem cummax_cons (x : ℚ) (t : List ℚ) :
    cummax (x :: t) = cummaxAux x (x :: t) := by
  simp [cummax, cummaxAux, max_self]

theorem cummaxAux_getD (l : List ℚ) (m : ℚ) (t : Nat) (h : t < l.length) :
    (cummaxAux m l).getD t 0 = List.foldl max m (l.take (t + 1)) := by
  induction l generalizing m t with
  | nil => simp at h
  | cons x l ih =>
    cases t with
    | zero => simp [cummaxAux]
    | succ t' =>
      have h' : t' < l.length := by simpa using h
      simpa [cummaxAux, List.take_succ_cons] using ih (max m x) t' h'

theorem cummax_getD (cs : List ℚ) (t : Nat) (h : t < cs.length) :
    (cummax cs).getD t 0 = ((cs.take (t + 1)).max?).getD 0 := by
  cases cs with
  | nil => simp at h
  | cons c0 rest =>
    rw [cummax_cons, cummaxAux_getD _ _ _ h, List.take_succ_cons,
      List.max?_cons']
    simp [max_self]

theorem le_foldl_max (l : List ℚ) (m : ℚ) : m ≤ List.foldl max m l := by
  induction l generalizing m with
  | nil => simp
  | cons x t ih => exact le_trans (le_max_left m x) (ih (max m x))

theorem mem_le_foldl_max (l : List ℚ) : ∀ (m x : ℚ), x ∈ l →
    x ≤ List.foldl max m l := by
  induction l with
  | nil => intro m x hx; simp at hx
  | cons y t ih =>
    intro m x hx
    rw [List.foldl_cons]
    rcases List.mem_cons.1 hx with h | h
    · subst h
      exact le_trans (le_max_right m x) (le_foldl_max t (max m x))
    · exact ih (max m y) x h

/-- Every cumulative sum is bounded by its running maximum. -/
theorem cumsum_le_cummax_getD (L : List ℚ) (t : Nat) (h : t < L.length) :
    L.getD t 0 ≤ (cummax L).getD t 0 := by
  rw [cummax_getD L t h]
  cases L with
  | nil => simp at h
  | cons c0 rest =>
    rw [List.take_succ_cons, List.max?_cons']
    have htake : t < ((c0 :: rest).take (t + 1)).length := by
      simp only [List.length_take, List.length_cons] at h ⊢
      omega
    have hmemt : (c0 :: rest)[t] ∈ (c0 :: rest).take (t + 1) := by
      have hgt := List.getElem_take (c0 :: rest) (j := t + 1) (i := t) (h := htake)
      rw [← hgt]
      exact List.getElem_mem htake
    rw [List.take_succ_cons] at hmemt
    rw [getD_lt _ _ _ h]
    show (c0 :: rest)[t] ≤ (some (List.foldl max c0 (rest.take t))).getD 0
    rcases List.mem_cons.1 hmemt with hc | hc
    · rw [hc]
      exact le_foldl_max _ _
    · exact mem_le_foldl_max _ _ _ hc

/-- The drawdown series of the source equals the per-index spec formula. -/
theorem drawdown_list_eq (l : List ℚ) :
    List.zipWith (fun a b => a - b) (cumsum l) (cummax (cumsum l)) =
      (List.range (cumsum l).length).map
        (fun t => (cumsum l).getD t 0 - (((cumsum l).take (t + 1)).max?).getD 0) := by
  apply List.ext_getElem
  · simp [List.length_zipWith, length_cummax]
  · intro n h1 h2
    have hn : n < (cumsum l).length := by
      simpa [List.length_zipWith, length_cummax] using h1
    have hcm : n < (cummax (cumsum l)).length := by rwa [length_cummax]
    rw [List.getElem_zipWith, List.getElem_map, List.getElem_range,
      ← cummax_getD _ _ hn, getD_lt _ _ _ hn, getD_lt _ _ _ hcm]

theorem cummaxAux_cumsumAux_of_nonneg (l : List ℚ) :
    ∀ (acc m : ℚ), (∀ x ∈ l, 0 ≤ x) → m ≤ acc →
      cummaxAux m (cumsumAux acc l) = cumsumAux acc l := by
  induction l with
  | nil => intro acc m _ _; rfl
  | cons x t ih =>
    intro acc m hpos hm
    have hx : 0 ≤ x := hpos x (List.mem_cons_self x t)
    have hmax : max m (acc + x) = acc + x := max_eq_right (by linarith)
    simp only [cumsumAux, cummaxAux, hmax]
    rw [ih (acc + x) (acc + x) (fun y hy => hpos y (List.mem_cons_of_mem x hy))
      le_rfl]

theorem cummax_cumsum_of_nonneg (l : List ℚ) (h : ∀ x ∈ l, 0 ≤ x) :
    cummax (cumsum l) = cumsum l := by
  cases l with
  | nil => rfl
  | cons x t =>
    show cummax (cumsumAux 0 (x :: t)) = cumsumAux 0 (x :: t)
    simp only [cumsumAux, cummax]
    rw [cummaxAux_cumsumAux_of_nonneg t (0 + x) (0 + x)
      (fun y hy => h y (List.mem_cons_of_mem x hy)) le_rfl]

theorem zipWith_sub_self (L : List ℚ) :
    List.zipWith (fun a b => a - b) L L = L.map (fun _ => (0 : ℚ)) := by
  induction L with
  | nil => rfl
  | cons x t ih => simp [ih]

theorem foldl_min_zero (L : List ℚ) (h : ∀ x ∈ L, x = 0) :
    List.foldl min 0 L = 0 := by
  induction L with
  | nil => rfl
  | cons x t ih =>
    have hx : x = 0 := h x (List.mem_cons_self x t)
    simp only [List.foldl_cons, hx, min_self]
    exact ih (fun y hy => h y (List.mem_cons_of_mem x hy))

/-- C7: the reported maximum drawdown is the minimum over t of cumsum minus the
running maximum of cumsum up to t; it is always non-positive for a non-empty
series, equals zero whenever every daily PnL value is non-negative, and equals
-100 on the series [100, -50, 30, -80, 200]. -/
theorem max_drawdown_spec :
    (∀ l : List ℚ, max_drawdown l = spec_max_drawdown l) ∧
    (∀ l : List ℚ, l ≠ [] → ∃ m, max_drawdown l = some m ∧ m ≤ 0) ∧
    (∀ l : List ℚ, (∀ x ∈ l, 0 ≤ x) → l ≠ [] → max_drawdown l = some 0) ∧
    max_drawdown [100, -50, 30, -80, 200] = some (-100) := by
  refine ⟨?_, ?_, ?_, ?_⟩
  · intro l
    unfold max_drawdown spec_max_drawdown
    rw [drawdown_list_eq]
  · intro l hl
    have hcs : cumsum l ≠ [] := by
      intro h
      have hlen := congrArg List.length h
      rw [length_cumsum] at hlen
      simp at hlen
      exact hl hlen
    unfold max_drawdown
    rcases hz : List.zipWith (fun a b => a - b) (cumsum l) (cummax (cumsum l))
      with _ | ⟨z, zs⟩
    · exfalso
      have hlen := congrArg List.length hz
      simp [List.length_zipWith, length_cummax] at hlen
      exact hcs hlen
    · refine ⟨List.foldl min z zs, List.min?_cons', ?_⟩
      have hsome : (z :: zs).min? = some (List.foldl min z zs) := List.min?_cons'
      have hmem : List.foldl min z zs ∈ z :: zs := List.min?_mem min_choice hsome
      rw [← hz] at hmem
      rcases List.mem_iff_getElem.1 hmem with ⟨t, ht, he⟩
      have hcst : t < (cumsum l).length := by
        simpa [List.length_zipWith, length_cummax] using ht
      have hcmt : t < (cummax (cumsum l)).length := by rwa [length_cummax]
      rw [List.getElem_zipWith] at he
      have hle := cumsum_le_cummax_getD (cumsum l) t hcst
      rw [getD_lt _ _ _ hcst, getD_lt _ _ _ hcmt] at hle
      rw [← he]
      linarith
  · intro l hpos hl
    unfold max_drawdown
    rw [cummax_cumsum_of_nonneg l hpos, zipWith_sub_self]
    have hcs : cumsum l ≠ [] := by
      intro h
      have hlen := congrArg List.length h
      rw [length_cumsum] at hlen
      simp at hlen
      exact hl hlen
    rcases hcons : cumsum l with _ | ⟨c0, rest⟩
    · exact absurd hcons hcs
    · simp only [List.map_cons, List.min?_cons']
      rw [foldl_min_zero]
      intro x hx
      rcases List.mem_map.1 hx with ⟨y, -, hy⟩
      exact hy.symm
  · show (List.zipWith (fun a b => a - b) (cumsum [100, -50, 30, -80, 200])
      (cummax (cumsum [100, -50, 30, -80, 200]))).min? = some (-100)
    norm_num [cumsum, cumsumAux, cummax, cummaxAux, List.min?_cons', min_def,
      max_def]

/-- Witness for C7 at the series [1, -2] (a negative drawdown exists) and at
the everywhere non-negative series [1, 1] (drawdown zero). -/
theorem max_drawdown_witness :
    (([1, -2] : List ℚ) ≠ [] ∧ ∃ m, max_drawdown [1, -2] = some m ∧ m ≤ 0) ∧
    ((∀ x ∈ ([1, 1] : List ℚ), 0 ≤ x) ∧ ([1, 1] : List ℚ) ≠ [] ∧
      max_drawdown [1, 1] = some 0) :=
  ⟨⟨by simp, max_drawdown_spec.2.1 [1, -2] (by simp)⟩,
   ⟨by norm_num, by simp,
    max_drawdown_spec.2.2.1 [1, 1] (by norm_num) (by simp)⟩⟩

/-! ### C8: recency weights -/

theorem foldl_min_le_self (l : List ℝ) : ∀ m : ℝ, List.foldl min m l ≤ m := by
  induction l with
  | nil => intro m; simp
  | cons x t ih =>
    intro m
    rw [List.foldl_cons]
    exact le_trans (ih (min m x)) (min_le_left m x)

theorem foldl_min_le_mem (l : List ℝ) : ∀ (m x : ℝ), x ∈ l →
    List.foldl min m l ≤ x := by
  induction l with
  | nil => intro m x hx; simp at hx
  | cons y t ih =>
    intro m x hx
    rw [List.foldl_cons]
    rcases List.mem_cons.1 hx with h | h
    · subst h
      exact le_trans (foldl_min_le_self t (min m x)) (min_le_right m x)
    · exact ih (min m y) x h

theorem foldl_min_mem (l : List ℝ) : ∀ m : ℝ,
    List.foldl min m l = m ∨ List.foldl min m l ∈ l := by
  induction l with
  | nil => intro m; exact Or.inl rfl
  | cons x t ih =>
    intro m
    rw [List.foldl_cons]
    rcases ih (min m x) with h | h
    · rcases min_choice m x with hm | hm
      · exact Or.inl (h.trans hm)
      · exact Or.inr (by rw [h, hm]; exact List.mem_cons_self x t)
    · exact Or.inr (List.mem_cons_of_mem x h)

theorem le_foldl_maxR (l : List ℝ) : ∀ m : ℝ, m ≤ List.foldl max m l := by
  induction l with
  | nil => intro m; simp
  | cons x t ih =>
    intro m
    rw [List.foldl_cons]
    exact le_trans (le_max_left m x) (ih (max m x))

theorem mem_le_foldl_maxR (l : List ℝ) : ∀ (m x : ℝ), x ∈ l →
    x ≤ List.foldl max m l := by
  induction l with
  | nil => intro m x hx; simp at hx
  | cons y t ih =>
    intro m x hx
    rw [List.foldl_cons]
    rcases List.mem_cons.1 hx with h | h
    · subst h
      exact le_trans (le_max_right m x) (le_foldl_maxR t (max m x))
    · exact ih (max m y) x h

theorem foldl_max_mem (l : List ℝ) : ∀ m : ℝ,
    List.foldl max m l = m ∨ List.foldl max m l ∈ l := by
  induction l with
  | nil => intro m; exact Or.inl rfl
  | cons x t ih =>
    intro m
    rw [List.foldl_cons]
    rcases ih (max m x) with h | h
    · rcases max_choice m x with hm | hm
      · exact Or.inl (h.trans hm)
      · exact Or.inr (by rw [h, hm]; exact List.mem_cons_self x t)
    · exact Or.inr (List.mem_cons_of_mem x h)

theorem listMinR_le (l : List ℝ) (x : ℝ) (hx : x ∈ l) : listMinR l ≤ x := by
  cases l with
  | nil => simp at hx
  | cons y t =>
    rcases List.mem_cons.1 hx with h | h
    · subst h
      exact foldl_min_le_self t x
    · exact foldl_min_le_mem t y x h

theorem listMinR_mem (l : List ℝ) (hl : l ≠ []) : listMinR l ∈ l := by
  cases l with
  | nil => exact absurd rfl hl
  | cons y t =>
    rcases foldl_min_mem t y with h | h
    · rw [listMinR, h]; exact List.mem_cons_self y t
    · exact List.mem_cons_of_mem y h

theorem le_listMaxR (l : List ℝ) (x : ℝ) (hx : x ∈ l) : x ≤ listMaxR l := by
  cases l with
  | nil => simp at hx
  | cons y t =>
    rcases List.mem_cons.1 hx with h | h
    · subst h
      exact le_foldl_maxR t x
    · exact mem_le_foldl_maxR t y x h

theorem listMaxR_mem (l : List ℝ) (hl : l ≠ []) : listMaxR l ∈ l := by
  cases l with
  | nil => exact absurd rfl hl
  | cons y t =>
    rcases foldl_max_mem t y with h | h
    · rw [listMaxR, h]; exact List.mem_cons_self y t
    · exact List.mem_cons_of_mem y h

theorem length_np_time_weights (n : Nat) : (np_time_weights n).length = n := by
  rw [np_time_weights, List.length_map, List.length_range]

theorem np_time_weights_ne_nil (n : Nat) (hn : 1 ≤ n) :
    np_time_weights n ≠ [] := by
  intro h
  have hlen := congrArg List.length h
  rw [length_np_time_weights] at hlen
  simp at hlen
  omega

theorem np_time_weights_mem (n : Nat) (x : ℝ) (hx : x ∈ np_time_weights n) :
    ∃ k : Nat, k < n ∧ x = Real.exp (0.01 * (k : ℝ)) := by
  rcases List.mem_map.1 hx with ⟨k, hk, he⟩
  exact ⟨k, List.mem_range.1 hk, he.symm⟩

theorem exp_mem_np_time_weights (n k : Nat) (hk : k < n) :
    Real.exp (0.01 * (k : ℝ)) ∈ np_time_weights n :=
  List.mem_map.2 ⟨k, List.mem_range.2 hk, rfl⟩

theorem listMinR_np_time_weights (n : Nat) (hn : 1 ≤ n) :
    listMinR (np_time_weights n) = 1 := by
  have h0 : Real.exp (0.01 * ((0 : Nat) : ℝ)) ∈ np_time_weights n :=
    exp_mem_np_time_weights n 0 (by omega)
  have h0' : Real.exp (0.01 * ((0 : Nat) : ℝ)) = 1 := by
    norm_num
  have hub : listMinR (np_time_weights n) ≤ 1 := by
    have := listMinR_le _ _ h0
    rwa [h0'] at this
  have hmem := listMinR_mem _ (np_time_weights_ne_nil n hn)
  rcases np_time_weights_mem n _ hmem with ⟨k, -, hk⟩
  have hlb : 1 ≤ listMinR (np_time_weights n) := by
    rw [hk]
    calc (1 : ℝ) = Real.exp 0 := Real.exp_zero.symm
    _ ≤ Real.exp (0.01 * (k : ℝ)) := Real.exp_le_exp.2 (by positivity)
  linarith

theorem listMaxR_np_time_weights (n : Nat) (hn : 1 ≤ n) :
    listMaxR (np_time_weights n) = Real.exp (0.01 * ((n - 1 : Nat) : ℝ)) := by
  have hub : Real.exp (0.01 * ((n - 1 : Nat) : ℝ)) ≤ listMaxR (np_time_weights n) :=
    le_listMaxR _ _ (exp_mem_np_time_weights n (n - 1) (by omega))
  have hmem := listMaxR_mem _ (np_time_weights_ne_nil n hn)
  rcases np_time_weights_mem n _ hmem with ⟨k, hk, hke⟩
  have hlb : listMaxR (np_time_weights n) ≤ Real.exp (0.01 * ((n - 1 : Nat) : ℝ)) := by
    rw [hke]
    apply Real.exp_le_exp.2
    have hc : (k : ℝ) ≤ ((n - 1 : Nat) : ℝ) := by
      exact_mod_cast Nat.le_sub_one_of_lt hk
    nlinarith
  linarith

theorem np_time_weights_getElem? (n i : Nat) (hi : i < n) :
    (np_time_weights n)[i]? = some (Real.exp (0.01 * (i : ℝ))) := by
  show (List.map (fun i : Nat => Real.exp (0.01 * (i : ℝ))) (List.range n))[i]? = _
  rw [List.getElem?_map, List.getElem?_range hi]
  rfl

theorem time_weights_getD (n i : Nat) (hi : i < n) :
    (time_weights n).getD i 0 =
      0.5 + 0.5 * (Real.exp (0.01 * (i : ℝ)) - listMinR (np_time_weights n)) /
        (listMaxR (np_time_weights n) - listMinR (np_time_weights n)) := by
  rw [List.getD_eq_getElem?_getD]
  have : (time_weights n)[i]? = some (0.5 +
      0.5 * (Real.exp (0.01 * (i : ℝ)) - listMinR (np_time_weights n)) /
        (listMaxR (np_time_weights n) - listMinR (np_time_weights n))) := by
    show (List.map _ (np_time_weights n))[i]? = _
    rw [List.getElem?_map, np_time_weights_getElem? n i hi]
    rfl
  rw [this]
  rfl

/-- C8: for every training set with at least 2 samples the per-sample recency
weights all lie in [0.5, 1.0], are monotonically non-decreasing in
chronological position, the oldest sample's weight is 0.5, and the most recent
sample's weight is the maximum, equal to 1.0. -/
theorem time_weights_spec :
    ∀ n : Nat, 2 ≤ n →
      (∀ w ∈ time_weights n, 1 / 2 ≤ w ∧ w ≤ 1) ∧
      (∀ i j : Nat, i ≤ j → j < n →
        (time_weights n).getD i 0 ≤ (time_weights n).getD j 0) ∧
      (time_weights n).getD (n - 1) 0 = 1 ∧
      (time_weights n).getD 0 0 = 1 / 2 ∧
      (∀ w ∈ time_weights n, w ≤ (time_weights n).getD (n - 1) 0) := by
  intro n hn
  have h1n : 1 ≤ n := by omega
  have hlo := listMinR_np_time_weights n h1n
  have hhi := listMaxR_np_time_weights n h1n
  have hD : (0 : ℝ) <
      listMaxR (np_time_weights n) - listMinR (np_time_weights n) := by
    rw [hlo, hhi]
    have h1 : (0 : ℝ) < 0.01 * ((n - 1 : Nat) : ℝ) := by
      have hc : (1 : ℝ) ≤ ((n - 1 : Nat) : ℝ) := by
        exact_mod_cast Nat.one_le_iff_ne_zero.2 (by omega)
      nlinarith
    have h2 := Real.exp_lt_exp.2 h1
    rw [Real.exp_zero] at h2
    linarith
  have hnum : ∀ k : Nat, k < n →
      0 ≤ Real.exp (0.01 * (k : ℝ)) - listMinR (np_time_weights n) ∧
      Real.exp (0.01 * (k : ℝ)) - listMinR (np_time_weights n) ≤
        listMaxR (np_time_weights n) - listMinR (np_time_weights n) := by
    intro k hk
    constructor
    · rw [hlo]
      have h3 : Real.exp 0 ≤ Real.exp (0.01 * (k : ℝ)) :=
        Real.exp_le_exp.2 (by positivity)
      rw [Real.exp_zero] at h3
      linarith
    · have h4 : Real.exp (0.01 * (k : ℝ)) ≤ listMaxR (np_time_weights n) :=
        le_listMaxR _ _ (exp_mem_np_time_weights n k hk)
      linarith
  have hbound : ∀ w ∈ time_weights n, 1 / 2 ≤ w ∧ w ≤ 1 := by
    intro w hw
    rcases List.mem_map.1 hw with ⟨x, hx, hxe⟩
    rcases np_time_weights_mem n x hx with ⟨k, hk, hke⟩
    subst hke
    rcases hnum k hk with ⟨hge, hle⟩
    have hq1 : 0 ≤ (Real.exp (0.01 * (k : ℝ)) - listMinR (np_time_weights n)) /
        (listMaxR (np_time_weights n) - listMinR (np_time_weights n)) :=
      div_nonneg hge (le_of_lt hD)
    have hq2 : (Real.exp (0.01 * (k : ℝ)) - listMinR (np_time_weights n)) /
        (listMaxR (np_time_weights n) - listMinR (np_time_weights n)) ≤ 1 :=
      (div_le_one hD).2 hle
    rw [← hxe, mul_div_assoc]
    constructor <;> linarith
  have hlast : (time_weights n).getD (n - 1) 0 = 1 := by
    rw [time_weights_getD n (n - 1) (by omega), ← hhi, mul_div_assoc,
      div_self (ne_of_gt hD)]
    norm_num
  refine ⟨hbound, ?_, hlast, ?_, ?_⟩
  · intro i j hij hj
    rw [time_weights_getD n i (by omega), time_weights_getD n j hj,
      mul_div_assoc, mul_div_assoc]
    have hmono : Real.exp (0.01 * (i : ℝ)) ≤ Real.exp (0.01 * (j : ℝ)) := by
      apply Real.exp_le_exp.2
      have hc : (i : ℝ) ≤ (j : ℝ) := by exact_mod_cast hij
      nlinarith
    have hq := (div_le_div_iff_of_pos_right hD).2
      (sub_le_sub_right hmono (listMinR (np_time_weights n)))
    linarith
  · rw [time_weights_getD n 0 (by omega), hlo]
    norm_num
  · intro w hw
    rw [hlast]
    exact (hbound w hw).2

/-- Witness for C8 at the two-sample training set. -/
theorem time_weights_witness :
    2 ≤ 2 ∧
    ((∀ w ∈ time_weights 2, 1 / 2 ≤ w ∧ w ≤ 1) ∧
      (∀ i j : Nat, i ≤ j → j < 2 →
        (time_weights 2).getD i 0 ≤ (time_weights 2).getD j 0) ∧
      (time_weights 2).getD (2 - 1) 0 = 1 ∧
      (time_weights 2).getD 0 0 = 1 / 2 ∧
      (∀ w ∈ time_weights 2, w ≤ (time_weights 2).getD (2 - 1) 0)) :=
  ⟨le_rfl, time_weights_spec 2 le_rfl⟩

/-! ### C9: trade-id uniqueness -/

theorem decDigit_toNat (d : Nat) : (decDigit d).toNat = 48 + d % 10 := by
  have h : d % 10 < 10 := Nat.mod_lt _ (by norm_num)
  have key : ∀ m : Nat, m < 10 → (Char.ofNat (48 + m)).toNat = 48 + m := by
    decide
  exact key _ h

theorem decDigit_le (d : Nat) : (decDigit d).toNat ≤ 57 := by
  rw [decDigit_toNat]
  have h : d % 10 < 10 := Nat.mod_lt _ (by norm_num)
  omega

theorem decDigit_ne (d : Nat) (c : Char) (hc : 57 < c.toNat) : decDigit d ≠ c := by
  intro h
  have h1 := decDigit_le d
  rw [h] at h1
  omega

theorem natChars_le (n : Nat) (c : Char) (hc : c ∈ natChars n) : c.toNat ≤ 57 := by
  unfold natChars at hc
  split_ifs at hc with h
  · rcases List.mem_cons.1 hc with hc1 | hc1
    · rw [hc1]
      decide
    · simp at hc1
  · rcases List.mem_map.1 hc with ⟨d, -, hd⟩
    rw [← hd]
    exact decDigit_le d

theorem natChars_ne_underscore (n : Nat) (c : Char) (hc : c ∈ natChars n) :
    c ≠ '_' := by
  intro h
  have h1 := natChars_le n c hc
  rw [h] at h1
  exact absurd h1 (by decide)

theorem parse_steps (ds : List Nat) : ∀ a : Nat, (∀ d ∈ ds, d < 10) →
    List.foldl (fun a c => 10 * a + (c.toNat - 48)) a ((ds.reverse).map decDigit) =
      a * 10 ^ ds.length + Nat.ofDigits 10 ds := by
  induction ds with
  | nil => intro a _; simp [Nat.ofDigits]
  | cons d t ih =>
    intro a hd
    rw [List.reverse_cons, List.map_append, List.foldl_append]
    rw [ih a (fun x hx => hd x (List.mem_cons_of_mem d hx))]
    have hdig : (decDigit d).toNat - 48 = d := by
      rw [decDigit_toNat]
      have : d % 10 = d := Nat.mod_eq_of_lt (hd d (List.mem_cons_self d t))
      omega
    simp only [List.map_cons, List.map_nil, List.foldl_cons, List.foldl_nil,
      hdig, Nat.ofDigits_cons, List.length_cons]
    ring

theorem parseNat_natChars (n : Nat) : parseNat (natChars n) = n := by
  by_cases h : n = 0
  · subst h
    decide
  · unfold natChars parseNat
    rw [if_neg h]
    rw [parse_steps (Nat.digits 10 n) 0
      (fun d hd => Nat.digits_lt_base (by norm_num) hd)]
    simp [Nat.ofDigits_digits]

theorem takeWhile_all_append {α : Type} (p : α → Bool) (f : List α) (s : α)
    (r : List α) (hf : ∀ c ∈ f, p c = true) (hs : p s = false) :
    (f ++ s :: r).takeWhile p = f := by
  induction f with
  | nil => simp [List.takeWhile_cons, hs]
  | cons c t ih =>
    have hc : p c = true := hf c (List.mem_cons_self c t)
    simp only [List.cons_append, List.takeWhile_cons, hc, if_true]
    rw [ih (fun x hx => hf x (List.mem_cons_of_mem c hx))]

theorem dropWhile_all_append {α : Type} (p : α → Bool) (f : List α) (s : α)
    (r : List α) (hf : ∀ c ∈ f, p c = true) (hs : p s = false) :
    (f ++ s :: r).dropWhile p = s :: r := by
  induction f with
  | nil => simp [List.dropWhile_cons, hs]
  | cons c t ih =>
    have hc : p c = true := hf c (List.mem_cons_self c t)
    simp only [List.cons_append, List.dropWhile_cons, hc, if_true]
    exact ih (fun x hx => hf x (List.mem_cons_of_mem c hx))

/-- Splitting the reversed trade-id at the rightmost separators: take the field
before the next `'_'` and the remainder after it.  Proof machinery for
recovering the row index and side from a generated trade-id. -/
def chopField (l : List Char) : List Char × List Char :=
  (l.takeWhile (fun c => c != '_'), (l.dropWhile (fun c => c != '_')).drop 1)

theorem chopField_append (f r : List Char) (hf : ∀ c ∈ f, c ≠ '_') :
    chopField (f ++ '_' :: r) = (f, r) := by
  have hf' : ∀ c ∈ f, (fun c => c != '_') c = true := by
    intro c hc
    simpa using hf c hc
  have hs : (fun c : Char => c != '_') '_' = false := by decide
  unfold chopField
  rw [takeWhile_all_append _ f '_' r hf' hs, dropWhile_all_append _ f '_' r hf' hs]
  rfl

/-- The row index recovered from a generated trade-id: the decimal field
between the last two separators. -/
def idIdx (cs : List Char) : Nat :=
  parseNat (((chopField ((chopField cs.reverse).2)).1).reverse)

theorem idIdx_mkTradeId (leg ts : List Char) (idx : Nat) (side : List Char)
    (hside : ∀ c ∈ side, c ≠ '_') :
    idIdx (mkTradeId leg ts idx side) = idx := by
  have hrev : (mkTradeId leg ts idx side).reverse =
      side.reverse ++ '_' :: ((natChars idx).reverse ++ '_' ::
        (ts.reverse ++ '_' :: (leg.reverse ++ ['_', 'L', 'M']))) := by
    simp [mkTradeId]
  unfold idIdx
  rw [hrev, chopField_append _ _ (fun c hc => hside c (List.mem_reverse.1 hc))]
  rw [chopField_append _ _
    (fun c hc => natChars_ne_underscore idx c (List.mem_reverse.1 hc))]
  rw [List.reverse_reverse, parseNat_natChars]

/-- The discriminating key of a generated trade-id: the leg character at
position 3 (`'D'` or `'I'`) together with the recovered row index. -/
def tradeKey (t : Trade) : Option Char × Nat :=
  ((t.trade_id.data)[3]?, idIdx t.trade_id.data)

theorem tradeKey_daBuyTrade (s : String) (r : ScoredRow) :
    tradeKey (daBuyTrade s r) = (some 'D', r.row.idx) := by
  unfold tradeKey daBuyTrade
  refine Prod.ext rfl ?_
  exact idIdx_mkTradeId _ _ _ _ (by decide)

theorem tradeKey_idSellTrade (s : String) (r : ScoredRow) :
    tradeKey (idSellTrade s r) = (some 'I', r.row.idx) := by
  unfold tradeKey idSellTrade
  refine Prod.ext rfl ?_
  exact idIdx_mkTradeId _ _ _ _ (by decide)

theorem tradeKey_daSellTrade (s : String) (r : ScoredRow) :
    tradeKey (daSellTrade s r) = (some 'D', r.row.idx) := by
  unfold tradeKey daSellTrade
  refine Prod.ext rfl ?_
  exact idIdx_mkTradeId _ _ _ _ (by decide)

theorem tradeKey_idBuyTrade (s : String) (r : ScoredRow) :
    tradeKey (idBuyTrade s r) = (some 'I', r.row.idx) := by
  unfold tradeKey idBuyTrade
  refine Prod.ext rfl ?_
  exact idIdx_mkTradeId _ _ _ _ (by decide)

theorem tradesForRow_map_key (s : String) (r : ScoredRow) :
    (tradesForRow s r).map tradeKey = [] ∨
    (tradesForRow s r).map tradeKey =
      [(some 'D', r.row.idx), (some 'I', r.row.idx)] := by
  unfold tradesForRow
  split_ifs with h1 h2
  · right
    simp [tradeKey_daBuyTrade, tradeKey_idSellTrade]
  · right
    simp [tradeKey_daSellTrade, tradeKey_idBuyTrade]
  · left
    rfl

theorem key_snd_of_mem (s : String) (r : ScoredRow) (k : Option Char × Nat)
    (hk : k ∈ (tradesForRow s r).map tradeKey) : k.2 = r.row.idx := by
  rcases tradesForRow_map_key s r with h | h
  · rw [h] at hk
    simp at hk
  · rw [h] at hk
    rcases List.mem_cons.1 hk with h1 | h1
    · rw [h1]
    · rcases List.mem_cons.1 h1 with h2 | h2
      · rw [h2]
      · simp at h2

theorem nodup_flatMap_keys (s : String) (rows : List ScoredRow)
    (h : (rows.map (fun r => r.row.idx)).Nodup) :
    ((rows.flatMap (tradesForRow s)).map tradeKey).Nodup := by
  induction rows with
  | nil => simp
  | cons r t ih =>
    rw [List.map_cons, List.nodup_cons] at h
    rw [List.flatMap_cons, List.map_append]
    apply List.Nodup.append
    · rcases tradesForRow_map_key s r with hk | hk
      · rw [hk]; exact List.nodup_nil
      · rw [hk]
        refine List.nodup_cons.2 ⟨?_, List.nodup_singleton _⟩
        intro hmem
        rcases List.mem_cons.1 hmem with h1 | h1
        · have hfst := congrArg Prod.fst h1
          simp at hfst
        · simp at h1
    · exact ih h.2
    · intro k hk1 hk2
      have h1 : k.2 = r.row.idx := key_snd_of_mem s r k hk1
      have h2 : k.2 ∈ t.map (fun r => r.row.idx) := by
        rw [List.map_flatMap] at hk2
        rcases List.mem_flatMap.1 hk2 with ⟨r', hr', hkr'⟩
        rw [key_snd_of_mem s r' k hkr']
        exact List.mem_map.2 ⟨r', hr', rfl⟩
      rw [h1] at h2
      exact h.1 h2

/-- C9: for signal rows with pairwise-distinct dataframe indices the generated
trade-ids are pairwise distinct (so the primary-key collision branch of
`insert_trades_to_db` is unreachable), and n non-flat signals yield exactly 2n
trades. -/
theorem trade_id_uniqueness :
    ∀ (strat : String) (rows : List ScoredRow),
      (rows.map (fun r => r.row.idx)).Nodup →
      ((convert_to_trades rows strat).map Trade.trade_id).Nodup ∧
      ((∀ r ∈ rows, r.signal = 1 ∨ r.signal = -1) →
        (convert_to_trades rows strat).length = 2 * rows.length) := by
  intro strat rows h
  constructor
  · apply List.Nodup.of_map (fun id : String => ((id.data)[3]?, idIdx id.data))
    have hfil : ((rows.filter (fun r => r.signal != 0)).map
        (fun r => r.row.idx)).Nodup :=
      ((rows.filter_sublist (p := fun r => r.signal != 0)).map
        (fun r => r.row.idx)).nodup h
    have hkeys := nodup_flatMap_keys strat (rows.filter (fun r => r.signal != 0))
      hfil
    rw [List.map_map]
    exact hkeys
  · intro hall
    have hfe : rows.filter (fun r => r.signal != 0) = rows := by
      apply List.filter_eq_self.2
      intro r hr
      rcases hall r hr with h1 | h1 <;> simp [h1]
    show ((rows.filter (fun r => r.signal != 0)).flatMap
      (tradesForRow strat)).length = 2 * rows.length
    rw [hfe]
    clear hfe h
    induction rows with
    | nil => rfl
    | cons r t ih =>
      rw [List.flatMap_cons, List.length_append, List.length_cons]
      have h2 : (tradesForRow strat r).length = 2 := by
        rcases hall r (List.mem_cons_self r t) with h1 | h1 <;>
          simp [tradesForRow, h1]
      rw [h2, ih (fun x hx => hall x (List.mem_cons_of_mem r hx))]
      ring

/-- Witness for C9 at two concrete signal rows with distinct indices. -/
theorem trade_id_uniqueness_witness :
    (([exLongRow, exShortRow].map (fun r => r.row.idx)).Nodup) ∧
    ((convert_to_trades [exLongRow, exShortRow] "ML_Daily_XGBoost").map
      Trade.trade_id).Nodup ∧
    (convert_to_trades [exLongRow, exShortRow] "ML_Daily_XGBoost").length = 4 := by
  have hidx : (([exLongRow, exShortRow].map (fun r => r.row.idx)).Nodup) := by
    decide
  have hall : ∀ r ∈ [exLongRow, exShortRow], r.signal = 1 ∨ r.signal = -1 := by
    intro r hr
    rcases List.mem_cons.1 hr with h1 | h1
    · rw [h1]; exact Or.inl rfl
    · rcases List.mem_cons.1 h1 with h2 | h2
      · rw [h2]; exact Or.inr rfl
      · simp at h2
    
  have hmain := trade_id_uniqueness "ML_Daily_XGBoost" [exLongRow, exShortRow] hidx
  exact ⟨hidx, hmain.1, hmain.2 hall⟩

/-! ### C10: leg-marker totality -/

theorem pad2_le (n : Nat) (c : Char) (hc : c ∈ pad2 n) : c.toNat ≤ 57 := by
  rcases List.mem_cons.1 hc with h | h
  · rw [h]; exact decDigit_le _
  · rcases List.mem_cons.1 h with h1 | h1
    · rw [h1]; exact decDigit_le _
    · simp at h1

theorem pad4_le (n : Nat) (c : Char) (hc : c ∈ pad4 n) : c.toNat ≤ 57 := by
  rcases List.mem_cons.1 hc with h | h
  · rw [h]; exact decDigit_le _
  rcases List.mem_cons.1 h with h | h
  · rw [h]; exact decDigit_le _
  rcases List.mem_cons.1 h with h | h
  · rw [h]; exact decDigit_le _
  rcases List.mem_cons.1 h with h | h
  · rw [h]; exact decDigit_le _
  simp at h

theorem fmtTs_chars (t : Int) (c : Char) (hc : c ∈ fmtTs t) :
    c = '_' ∨ c.toNat ≤ 57 := by
  unfold fmtTs at hc
  rcases List.mem_append.1 hc with h | h
  · rcases List.mem_append.1 h with h | h
    · rcases List.mem_append.1 h with h | h
      · exact Or.inr (pad4_le _ _ h)
      · exact Or.inr (pad2_le _ _ h)
    · exact Or.inr (pad2_le _ _ h)
  · rcases List.mem_cons.1 h with h | h
    · exact Or.inl h
    · rcases List.mem_append.1 h with h | h
      · rcases List.mem_append.1 h with h | h
        · exact Or.inr (pad2_le _ _ h)
        · exact Or.inr (pad2_le _ _ h)
      · exact Or.inr (pad2_le _ _ h)

theorem mem_mkTradeId (leg ts : List Char) (idx : Nat) (side : List Char)
    (c : Char) (hc : c ∈ mkTradeId leg ts idx side) :
    c ∈ leg ∨ c ∈ ts ∨ c ∈ natChars idx ∨ c ∈ side ∨ c = 'M' ∨ c = 'L' ∨
      c = '_' := by
  unfold mkTradeId at hc
  rcases List.mem_cons.1 hc with h | h
  · exact Or.inr (Or.inr (Or.inr (Or.inr (Or.inl h))))
  rcases List.mem_cons.1 h with h | h
  · exact Or.inr (Or.inr (Or.inr (Or.inr (Or.inr (Or.inl h)))))
  rcases List.mem_cons.1 h with h | h
  · exact Or.inr (Or.inr (Or.inr (Or.inr (Or.inr (Or.inr h)))))
  rcases List.mem_append.1 h with h | h
  · rcases List.mem_append.1 h with h | h
    · rcases List.mem_append.1 h with h | h
      · exact Or.inl h
      · rcases List.mem_cons.1 h with h1 | h1
        · exact Or.inr (Or.inr (Or.inr (Or.inr (Or.inr (Or.inr h1)))))
        · exact Or.inr (Or.inl h1)
    · rcases List.mem_cons.1 h with h1 | h1
      · exact Or.inr (Or.inr (Or.inr (Or.inr (Or.inr (Or.inr h1)))))
      · exact Or.inr (Or.inr (Or.inl h1))
  · rcases List.mem_cons.1 h with h1 | h1
    · exact Or.inr (Or.inr (Or.inr (Or.inr (Or.inr (Or.inr h1)))))
    · exact Or.inr (Or.inr (Or.inr (Or.inl h1)))

theorem mkTradeId_not_mem (leg : List Char) (t0 : Int) (idx : Nat)
    (side : List Char) (c : Char) (hleg : c ∉ leg) (hside : c ∉ side)
    (hc57 : 57 < c.toNat) (hcM : c ≠ 'M') (hcL : c ≠ 'L') (hcU : c ≠ '_') :
    c ∉ mkTradeId leg (fmtTs t0) idx side := by
  intro hmem
  rcases mem_mkTradeId _ _ _ _ _ hmem with h | h | h | h | h | h | h
  · exact hleg h
  · rcases fmtTs_chars t0 c h with h1 | h1
    · exact hcU h1
    · omega
  · have h1 := natChars_le idx c h
    omega
  · exact hside h
  · exact hcM h
  · exact hcL h
  · exact hcU h

theorem not_infix_of_not_mem {α : Type} (l₁ l₂ : List α) (c : α) (h1 : c ∈ l₁)
    (h2 : c ∉ l₂) : ¬ List.IsInfix l₁ l₂ :=
  fun hinf => h2 (hinf.sublist.mem h1)

theorem da_infix_mk (ts : List Char) (idx : Nat) (side : List Char) :
    List.IsInfix ['_', 'D', 'A', '_'] (mkTradeId ['D', 'A'] ts idx side) :=
  ⟨['M', 'L'], ts ++ '_' :: natChars idx ++ '_' :: side, rfl⟩

theorem id_infix_mk (ts : List Char) (idx : Nat) (side : List Char) :
    List.IsInfix ['_', 'I', 'D', '_'] (mkTradeId ['I', 'D'] ts idx side) :=
  ⟨['M', 'L'], ts ++ '_' :: natChars idx ++ '_' :: side, rfl⟩

/-- Total delivered volume recorded by one hour's accumulator, over the four
buy/sell x day-ahead/intraday buckets of the report. -/
def volSum (hd : HourData) : ℚ :=
  hd.buy_da_mw + hd.sell_da_mw + hd.buy_ida_mw + hd.sell_ida_mw

/-- C10: every trade emitted by the converter carries exactly one of the
substrings "_DA_" / "_ID_" in its trade_id, "_DA_" exactly on the day-ahead
leg, and processing such a trade adds its quantity to exactly one of the four
volume buckets of the hourly report (the bucket total grows by exactly the
trade's quantity). -/
theorem leg_marker_totality :
    (∀ (strat : String) (rows : List ScoredRow) (t : Trade),
      t ∈ convert_to_trades rows strat →
      ∃ r, r ∈ rows ∧ r.signal ≠ 0 ∧
        (((t = daBuyTrade strat r ∨ t = daSellTrade strat r) ∧
          hasDA t.trade_id = true ∧ hasID t.trade_id = false) ∨
         ((t = idSellTrade strat r ∨ t = idBuyTrade strat r) ∧
          hasID t.trade_id = true ∧ hasDA t.trade_id = false))) ∧
    (∀ (hd : HourData) (q p : ℚ) (sd : Side) (tid : String),
      ((hasDA tid = true ∧ hasID tid = false) ∨
       (hasID tid = true ∧ hasDA tid = false)) →
      volSum (updateHour hd q p sd tid) = volSum hd + q) := by
  constructor
  · intro strat rows t ht
    rcases List.mem_flatMap.1 ht with ⟨r, hr, htr⟩
    have hr' := List.mem_filter.1 hr
    refine ⟨r, hr'.1, by simpa using hr'.2, ?_⟩
    unfold tradesForRow at htr
    split_ifs at htr with h1 h2
    · rcases List.mem_cons.1 htr with h | h
      · subst h
        refine Or.inl ⟨Or.inl rfl, ?_, ?_⟩
        · exact decide_eq_true (da_infix_mk _ _ _)
        · exact decide_eq_false (not_infix_of_not_mem _ _ 'I' (by decide)
            (mkTradeId_not_mem _ _ _ _ 'I' (by decide) (by decide) (by decide)
              (by decide) (by decide) (by decide)))
      rcases List.mem_cons.1 h with h | h
      · subst h
        refine Or.inr ⟨Or.inl rfl, ?_, ?_⟩
        · exact decide_eq_true (id_infix_mk _ _ _)
        · exact decide_eq_false (not_infix_of_not_mem _ _ 'A' (by decide)
            (mkTradeId_not_mem _ _ _ _ 'A' (by decide) (by decide) (by decide)
              (by decide) (by decide) (by decide)))
      · simp at h
    · rcases List.mem_cons.1 htr with h | h
      · subst h
        refine Or.inl ⟨Or.inr rfl, ?_, ?_⟩
        · exact decide_eq_true (da_infix_mk _ _ _)
        · exact decide_eq_false (not_infix_of_not_mem _ _ 'I' (by decide)
            (mkTradeId_not_mem _ _ _ _ 'I' (by decide) (by decide) (by decide)
              (by decide) (by decide) (by decide)))
      rcases List.mem_cons.1 h with h | h
      · subst h
        refine Or.inr ⟨Or.inr rfl, ?_, ?_⟩
        · exact decide_eq_true (id_infix_mk _ _ _)
        · exact decide_eq_false (not_infix_of_not_mem _ _ 'A' (by decide)
            (mkTradeId_not_mem _ _ _ _ 'A' (by decide) (by decide) (by decide)
              (by decide) (by decide) (by decide)))
      · simp at h
    · simp at htr
  · intro hd q p sd tid hm
    rcases hm with ⟨hda, hid⟩ | ⟨hid, hda⟩ <;> cases sd <;>
      simp [updateHour, volSum, hda, hid] <;> ring

/-- Witness for C10: the day-ahead leg of the concrete long row is in the
converter's output and the marker facts follow from the theorem. -/
theorem leg_marker_totality_witness :
    daBuyTrade "ML_Daily_XGBoost" exLongRow ∈
      convert_to_trades [exLongRow] "ML_Daily_XGBoost" ∧
    (∃ r, r ∈ [exLongRow] ∧ r.signal ≠ 0 ∧
      (((daBuyTrade "ML_Daily_XGBoost" exLongRow = daBuyTrade "ML_Daily_XGBoost" r ∨
         daBuyTrade "ML_Daily_XGBoost" exLongRow = daSellTrade "ML_Daily_XGBoost" r) ∧
        hasDA (daBuyTrade "ML_Daily_XGBoost" exLongRow).trade_id = true ∧
        hasID (daBuyTrade "ML_Daily_XGBoost" exLongRow).trade_id = false) ∨
       ((daBuyTrade "ML_Daily_XGBoost" exLongRow = idSellTrade "ML_Daily_XGBoost" r ∨
         daBuyTrade "ML_Daily_XGBoost" exLongRow = idBuyTrade "ML_Daily_XGBoost" r) ∧
        hasID (daBuyTrade "ML_Daily_XGBoost" exLongRow).trade_id = true ∧
        hasDA (daBuyTrade "ML_Daily_XGBoost" exLongRow).trade_id = false))) := by
  have hconv : convert_to_trades [exLongRow] "ML_Daily_XGBoost" =
      [daBuyTrade "ML_Daily_XGBoost" exLongRow,
       idSellTrade "ML_Daily_XGBoost" exLongRow] := by
    show (List.filter _ [exLongRow]).flatMap _ = _
    rw [List.filter_cons]
    norm_num [exLongRow, tradesForRow]
  have hmem : daBuyTrade "ML_Daily_XGBoost" exLongRow ∈
      convert_to_trades [exLongRow] "ML_Daily_XGBoost" := by
    rw [hconv]
    exact List.mem_cons_self _ _
  exact ⟨hmem, leg_marker_totality.1 "ML_Daily_XGBoost" [exLongRow] _ hmem⟩

/-! ### C5: skip gating of the walk-forward loop -/

/-- The body of the walk-forward loop for one candidate scoring day: train on
the rows dated strictly before it, skip it on fewer than 100 training rows or
an empty test set, otherwise score the day's rows. -/
def dayBlock (fit : List FRow → FRow → ℚ) (df_ml : List FRow) (d : Int) :
    List ScoredRow :=
  if (df_ml.filter (fun r => r.date < d)).length < 100 then []
  else if (df_ml.filter (fun r => r.date == d)).length = 0 then []
  else (df_ml.filter (fun r => r.date == d)).map
    (scoreRow (fit (df_ml.filter (fun r => r.date < d))))

theorem scoredRows_eq_flatMap (fit : List FRow → FRow → ℚ) (df_ml : List FRow) :
    scoredRows fit df_ml =
      ((dedupFirst (df_ml.map FRow.date)).drop min_train_days).flatMap
        (dayBlock fit df_ml) := rfl

theorem dayBlock_dates (fit : List FRow → FRow → ℚ) (df_ml : List FRow)
    (d : Int) (s : ScoredRow) (hs : s ∈ dayBlock fit df_ml d) :
    s.row.date = d := by
  unfold dayBlock at hs
  split_ifs at hs with h1 h2
  · simp at hs
  · simp at hs
  · rcases List.mem_map.1 hs with ⟨r, hr, he⟩
    have hrd := (List.mem_filter.1 hr).2
    rw [beq_iff_eq] at hrd
    rw [← he]
    exact hrd

theorem dayBlock_ne_nil_iff (fit : List FRow → FRow → ℚ) (df_ml : List FRow)
    (d : Int) :
    dayBlock fit df_ml d ≠ [] ↔
      (100 ≤ (df_ml.filter (fun r => r.date < d)).length ∧
       df_ml.filter (fun r => r.date == d) ≠ []) := by
  unfold dayBlock
  split_ifs with h1 h2
  · simp only [ne_eq, not_true_eq_false, false_iff, not_and]
    intro h100
    omega
  · constructor
    · intro h
      exact absurd rfl h
    · rintro ⟨-, hne⟩
      exact absurd (List.length_eq_zero.1 h2) hne
  · constructor
    · intro _
      refine ⟨by omega, ?_⟩
      intro he
      rw [he] at h2
      exact h2 rfl
    · intro _
      intro hmap
      have hlen := congrArg List.length hmap
      simp only [List.length_map, List.length_nil] at hlen
      exact h2 hlen

theorem signals_filter_day (fit : List FRow → FRow → ℚ) (df_ml : List FRow)
    (d : Int) :
    (scoredRows fit df_ml).filter (fun s => s.row.date == d) =
      ((dedupFirst (df_ml.map FRow.date)).drop min_train_days).flatMap
        (fun d' => if d' = d then dayBlock fit df_ml d else []) := by
  rw [scoredRows_eq_flatMap, List.filter_flatMap]
  induction (dedupFirst (df_ml.map FRow.date)).drop min_train_days with
  | nil => rfl
  | cons a t ih =>
    rw [List.flatMap_cons, List.flatMap_cons, ih]
    congr 1
    by_cases ha : a = d
    · subst ha
      rw [if_pos rfl]
      apply List.filter_eq_self.2
      intro s hs
      rw [beq_iff_eq]
      exact dayBlock_dates fit df_ml a s hs
    · rw [if_neg ha]
      apply List.filter_eq_nil_iff.2
      intro s hs
      rw [beq_iff_eq]
      intro he
      exact ha ((dayBlock_dates fit df_ml a s hs ▸ he : a = d))

theorem tradesForRow_delivery_day (strat : String) (r : ScoredRow) (t : Trade)
    (ht : t ∈ tradesForRow strat r) : t.delivery_day = r.row.date := by
  unfold tradesForRow at ht
  split_ifs at ht with h1 h2
  · rcases List.mem_cons.1 ht with h | h
    · subst h; rfl
    · rcases List.mem_cons.1 h with h3 | h3
      · subst h3; rfl
      · simp at h3
  · rcases List.mem_cons.1 ht with h | h
    · subst h; rfl
    · rcases List.mem_cons.1 h with h3 | h3
      · subst h3; rfl
      · simp at h3
  · simp at ht

/-- C5 (amended): signals are emitted for a calendar day exactly when the day
lies beyond the 30-day warm-up (it is among the unique days after the first
30), its training set of strictly earlier rows has at least 100 rows, and at
least one feature row for the day exists.  When the run completes (at least
one candidate day was scored, so `pd.concat` succeeds), a skipped day
contributes zero signals and zero trades; the run aborts (returns `none`)
exactly when every candidate day was skipped. -/
theorem skip_gating :
    (∀ (fit : List FRow → FRow → ℚ) (df_ml : List FRow) (d : Int),
      (scoredRows fit df_ml).filter (fun s => s.row.date == d) ≠ []
        ↔ (d ∈ (dedupFirst (df_ml.map FRow.date)).drop min_train_days ∧
           100 ≤ (df_ml.filter (fun r => r.date < d)).length ∧
           df_ml.filter (fun r => r.date == d) ≠ [])) ∧
    (∀ (fit : List FRow → FRow → ℚ) (df_ml : List FRow)
      (results : List ScoredRow),
      apply_daily_ml_strategy fit df_ml = some results →
      ∀ (d : Int) (strat : String),
      ¬(d ∈ (dedupFirst (df_ml.map FRow.date)).drop min_train_days ∧
        100 ≤ (df_ml.filter (fun r => r.date < d)).length ∧
        df_ml.filter (fun r => r.date == d) ≠ []) →
      (convert_to_trades results strat).filter
        (fun t => t.delivery_day == d) = []) ∧
    (∀ (fit : List FRow → FRow → ℚ) (df_ml : List FRow),
      (apply_daily_ml_strategy fit df_ml = none ↔ scoredRows fit df_ml = []) ∧
      (scoredRows fit df_ml ≠ [] →
        apply_daily_ml_strategy fit df_ml = some (scoredRows fit df_ml))) := by
  have hiff : ∀ (fit : List FRow → FRow → ℚ) (df_ml : List FRow) (d : Int),
      (scoredRows fit df_ml).filter (fun s => s.row.date == d) ≠ []
        ↔ (d ∈ (dedupFirst (df_ml.map FRow.date)).drop min_train_days ∧
           100 ≤ (df_ml.filter (fun r => r.date < d)).length ∧
           df_ml.filter (fun r => r.date == d) ≠ []) := by
    intro fit df_ml d
    rw [signals_filter_day]
    constructor
    · intro hne
      rcases List.exists_mem_of_ne_nil _ hne with ⟨s, hs⟩
      rcases List.mem_flatMap.1 hs with ⟨d', hd', hsd'⟩
      by_cases hdd : d' = d
      · subst hdd
        rw [if_pos rfl] at hsd'
        have hb := (dayBlock_ne_nil_iff fit df_ml d').1 (List.ne_nil_of_mem hsd')
        exact ⟨hd', hb⟩
      · rw [if_neg hdd] at hsd'
        simp at hsd'
    · rintro ⟨hd, h100, htest⟩
      have hb : dayBlock fit df_ml d ≠ [] :=
        (dayBlock_ne_nil_iff fit df_ml d).2 ⟨h100, htest⟩
      rcases List.exists_mem_of_ne_nil _ hb with ⟨s, hs⟩
      apply List.ne_nil_of_mem (a := s)
      exact List.mem_flatMap.2 ⟨d, hd, by rw [if_pos rfl]; exact hs⟩
  refine ⟨hiff, ?_, ?_⟩
  · intro fit df_ml results hres d strat hng
    have hrs : results = scoredRows fit df_ml := by
      by_cases hempty : scoredRows fit df_ml = []
      · unfold apply_daily_ml_strategy at hres
        rw [if_pos hempty] at hres
        exact absurd hres (by simp)
      · unfold apply_daily_ml_strategy at hres
        rw [if_neg hempty] at hres
        exact (Option.some_inj.1 hres).symm
    subst hrs
    apply List.filter_eq_nil_iff.2
    intro t ht
    rw [beq_iff_eq]
    intro hday
    rcases List.mem_flatMap.1 ht with ⟨r, hr, htr⟩
    have hrd : t.delivery_day = r.row.date :=
      tradesForRow_delivery_day strat r t htr
    have hrmem : r ∈ scoredRows fit df_ml := (List.mem_filter.1 hr).1
    have hrfil : r ∈ (scoredRows fit df_ml).filter
        (fun s => s.row.date == d) := by
      apply List.mem_filter.2
      refine ⟨hrmem, ?_⟩
      rw [beq_iff_eq, ← hrd, hday]
    exact hng ((hiff fit df_ml d).1 (List.ne_nil_of_mem hrfil))
  · intro fit df_ml
    unfold apply_daily_ml_strategy
    split_ifs with hempty
    · exact ⟨by simp [hempty], fun hne => absurd hempty hne⟩
    · exact ⟨by simp [hempty], fun _ => rfl⟩

/-! ### C1: no-lookahead (corrected) -/

theorem dedup_step_nodup : ∀ (l acc : List Int), acc.Nodup →
    (l.foldl (fun acc x => if x ∈ acc then acc else acc ++ [x]) acc).Nodup := by
  intro l
  induction l with
  | nil => intro acc h; exact h
  | cons x t ih =>
    intro acc h
    rw [List.foldl_cons]
    apply ih
    split_ifs with hx
    · exact h
    · rw [List.nodup_append]
      refine ⟨h, List.nodup_singleton x, ?_⟩
      intro a ha hb
      rw [List.mem_singleton] at hb
      subst hb
      exact hx ha

theorem dedupFirst_nodup (l : List Int) : (dedupFirst l).Nodup :=
  dedup_step_nodup l [] List.nodup_nil

theorem flatMap_congr {α β : Type} (l : List α) (f g : α → List β)
    (h : ∀ a ∈ l, f a = g a) : l.flatMap f = l.flatMap g := by
  induction l with
  | nil => rfl
  | cons a t ih =>
    rw [List.flatMap_cons, List.flatMap_cons,
      h a (List.mem_cons_self a t),
      ih (fun x hx => h x (List.mem_cons_of_mem a hx))]

theorem flatMap_ite_eq (days : List Int) (d : Int) (L : List ScoredRow)
    (hd : d ∈ days) (hnd : days.Nodup) :
    (days.flatMap (fun d' => if d' = d then L else [])) = L := by
  induction days with
  | nil => simp at hd
  | cons a t ih =>
    rw [List.flatMap_cons]
    rw [List.nodup_cons] at hnd
    by_cases ha : a = d
    · subst ha
      rw [if_pos rfl]
      have hnil : t.flatMap (fun d' => if d' = a then L else []) = [] := by
        apply List.flatMap_eq_nil_iff.2
        intro x hx
        rw [if_neg]
        intro he
        subst he
        exact hnd.1 hx
      rw [hnil, List.append_nil]
    · rw [if_neg ha, List.nil_append]
      have hdt : d ∈ t := by
        rcases List.mem_cons.1 hd with h | h
        · exact absurd h.symm ha
        · exact h
      exact ih hdt hnd.2

theorem filter_eq_of_filter_le_eq (df1 df2 : List FRow) (d : Int)
    (h2 : df1.filter (fun r => r.date ≤ d) = df2.filter (fun r => r.date ≤ d))
    (p : FRow → Bool) (hp : ∀ r, p r = true → r.date ≤ d) :
    df1.filter p = df2.filter p := by
  have key : ∀ df : List FRow,
      df.filter p = (df.filter (fun r => r.date ≤ d)).filter p := by
    intro df
    rw [List.filter_filter]
    apply List.filter_congr
    intro r _
    cases hpr : p r
    · simp
    · simp [hp r hpr]
  rw [key df1, key df2, h2]

/-- C1 (amended): for every scored day d the model is fitted on exactly the
rows dated strictly before d and scores exactly the rows dated d, so the
emitted signals for d are unchanged under any mutation of rows dated strictly
after d (dates kept); rows dated exactly d never enter training, but they are
the scored rows, so mutating their feature values can change d's signals. -/
theorem no_lookahead :
    (∀ (fit : List FRow → FRow → ℚ) (df_ml : List FRow) (d : Int),
      d ∈ (dedupFirst (df_ml.map FRow.date)).drop min_train_days →
      100 ≤ (df_ml.filter (fun r => r.date < d)).length →
      df_ml.filter (fun r => r.date == d) ≠ [] →
      (scoredRows fit df_ml).filter (fun s => s.row.date == d) =
        (df_ml.filter (fun r => r.date == d)).map
          (scoreRow (fit (df_ml.filter (fun r => r.date < d))))) ∧
    (∀ (fit : List FRow → FRow → ℚ) (df1 df2 : List FRow) (d : Int),
      df1.map FRow.date = df2.map FRow.date →
      df1.filter (fun r => r.date ≤ d) = df2.filter (fun r => r.date ≤ d) →
      (scoredRows fit df1).filter (fun s => s.row.date == d) =
        (scoredRows fit df2).filter (fun s => s.row.date == d)) := by
  constructor
  · intro fit df_ml d hd h100 htest
    rw [signals_filter_day, flatMap_ite_eq _ _ _ hd
      ((List.drop_sublist _ _).nodup (dedupFirst_nodup _))]
    unfold dayBlock
    rw [if_neg (by omega),
      if_neg (show ¬(df_ml.filter (fun r => r.date == d)).length = 0 from
        fun h0 => htest (List.length_eq_zero.1 h0))]
  · intro fit df1 df2 d h1 h2
    have hdays : dedupFirst (df1.map FRow.date) = dedupFirst (df2.map FRow.date) := by
      rw [h1]
    have htr : df1.filter (fun r => r.date < d) =
        df2.filter (fun r => r.date < d) :=
      filter_eq_of_filter_le_eq df1 df2 d h2 _
        (fun r hr => le_of_lt (by simpa using hr))
    have hte : df1.filter (fun r => r.date == d) =
        df2.filter (fun r => r.date == d) :=
      filter_eq_of_filter_le_eq df1 df2 d h2 _
        (fun r hr => le_of_eq (by simpa using hr))
    rw [signals_filter_day, signals_filter_day, hdays]
    apply flatMap_congr
    intro a ha
    by_cases had : a = d
    · rw [if_pos had, if_pos had]
      unfold dayBlock
      rw [htr, hte]
    · rw [if_neg had, if_neg had]

/-- Training rows covering unique days 0..29 (100 rows in total, so day 30
passes both the warm-up and the 100-sample gate). -/
def mkTrainRow (k : Nat) : FRow :=
  { date := ((min k 29 : Nat) : Int), hour := 0
  , timestamp := ((min k 29 : Nat) : Int) * 1440
  , da_price := 0, id_price_h := 1, spread := 1, idx := k, feats := [0.3] }

/-- The single feature row of scored day 30; its feature vector holds the
feature value 0.6. -/
def cexTestRow1 : FRow :=
  { date := 30, hour := 12, timestamp := 30 * 1440 + 720, da_price := 50
  , id_price_h := 60, spread := 0, idx := 100, feats := [0.6] }

/-- The same row of day 30 with one feature value mutated to 0.5; every other
field (including the date, prices, spread and index) is unchanged. -/
def cexTestRow2 : FRow :=
  { date := 30, hour := 12, timestamp := 30 * 1440 + 720, da_price := 50
  , id_price_h := 60, spread := 0, idx := 100, feats := [0.5] }

/-- A concrete deterministic classifier: the predicted probability is the
scored row's first feature value (`feats` models the `feature_columns` inputs
of `predict_proba`; a decision-tree classifier can realize a probability that
depends monotonically on one feature). -/
def cexFit : List FRow → FRow → ℚ := fun _ r => r.feats.headD 0

def cexRows1 : List FRow := (List.range 100).map mkTrainRow ++ [cexTestRow1]

def cexRows2 : List FRow := (List.range 100).map mkTrainRow ++ [cexTestRow2]

/-- A dataset with 31 unique days whose sole candidate day (day 30) has only
99 training rows: every candidate day is skipped and the run aborts. -/
def cexRowsAbort : List FRow := (List.range 99).map mkTrainRow ++ [cexTestRow1]

set_option maxRecDepth 100000

/-- Counterexample for C1 as stated: the two datasets agree on every row dated
before day 30 and on all dates, and differ only in one feature value of a row
dated exactly 30 (on or after the scored day) - yet the signals emitted for
day 30 change from long to flat. -/
theorem no_lookahead_cex :
    cexRows1.map FRow.date = cexRows2.map FRow.date ∧
    cexRows1.filter (fun r => r.date < 30) =
      cexRows2.filter (fun r => r.date < 30) ∧
    ((scoredRows cexFit cexRows1).filter
      (fun s => s.row.date == 30)).map ScoredRow.signal = [1] ∧
    ((scoredRows cexFit cexRows2).filter
      (fun s => s.row.date == 30)).map ScoredRow.signal = [0] := by
  refine ⟨rfl, rfl, ?_, ?_⟩
  · have h3 : ((scoredRows cexFit cexRows1).filter
        (fun s => s.row.date == 30)).map ScoredRow.signal =
        [signalOf (0.6 : ℚ)] := rfl
    rw [h3]
    norm_num [signalOf]
  · have h4 : ((scoredRows cexFit cexRows2).filter
        (fun s => s.row.date == 30)).map ScoredRow.signal =
        [signalOf (0.5 : ℚ)] := rfl
    rw [h4]
    norm_num [signalOf]

/-- Witness for C1 (amended) at the concrete 101-row dataset: day 30 passes
the gates and its signals are exactly the scored day-30 rows of a model
trained on the rows dated before 30. -/
theorem no_lookahead_witness :
    (30 ∈ (dedupFirst (cexRows1.map FRow.date)).drop min_train_days ∧
     100 ≤ (cexRows1.filter (fun r => r.date < 30)).length ∧
     cexRows1.filter (fun r => r.date == 30) ≠ []) ∧
    (scoredRows cexFit cexRows1).filter
        (fun s => s.row.date == 30) =
      (cexRows1.filter (fun r => r.date == 30)).map
        (scoreRow (cexFit (cexRows1.filter (fun r => r.date < 30)))) := by
  have hg1 : 30 ∈ (dedupFirst (cexRows1.map FRow.date)).drop min_train_days := by
    decide
  have hg2 : 100 ≤ (cexRows1.filter (fun r => r.date < 30)).length := by
    decide
  have hg3 : cexRows1.filter (fun r => r.date == 30) ≠ [] := by
    decide
  exact ⟨⟨hg1, hg2, hg3⟩, no_lookahead.1 cexFit cexRows1 30 hg1 hg2 hg3⟩

/-- Counterexample for C5 as stated: in `cexRowsAbort` day 30 is a candidate
day (beyond the warm-up) but has only 99 training rows, so it is skipped -
and, every candidate day having been skipped, the run does not complete with
zero signals but aborts (`pd.concat` of the empty results list raises
ValueError, modeled as `none`). -/
theorem skip_gating_cex :
    30 ∈ (dedupFirst (cexRowsAbort.map FRow.date)).drop min_train_days ∧
    (cexRowsAbort.filter (fun r => r.date < 30)).length = 99 ∧
    scoredRows cexFit cexRowsAbort = [] ∧
    apply_daily_ml_strategy cexFit cexRowsAbort = none := by
  exact ⟨by decide, by decide, rfl, rfl⟩

/-- Witness for C5 (amended): day 30 of the 101-row dataset passes all three
gates, the run completes (`some`), and day 0 (inside the warm-up) contributes
zero trades to the completed run's conversion. -/
theorem skip_gating_witness :
    ((scoredRows cexFit cexRows1).filter
        (fun s => s.row.date == 30) ≠ []) ∧
    (apply_daily_ml_strategy cexFit cexRows1 =
      some (scoredRows cexFit cexRows1)) ∧
    ((convert_to_trades (scoredRows cexFit cexRows1)
        "ML_Daily_XGBoost").filter (fun t => t.delivery_day == (0 : Int)) = []) := by
  have h30 : (scoredRows cexFit cexRows1).filter
      (fun s => s.row.date == 30) ≠ [] :=
    (skip_gating.1 cexFit cexRows1 30).2 ⟨by decide, by decide, by decide⟩
  have hne : scoredRows cexFit cexRows1 ≠ [] := by
    intro he
    rw [he] at h30
    exact h30 rfl
  have hsome : apply_daily_ml_strategy cexFit cexRows1 =
      some (scoredRows cexFit cexRows1) :=
    (skip_gating.2.2 cexFit cexRows1).2 hne
  refine ⟨h30, hsome, ?_⟩
  apply skip_gating.2.1 cexFit cexRows1 (scoredRows cexFit cexRows1) hsome 0
    "ML_Daily_XGBoost"
  decide

/-! ### C6: hourly PnL aggregation -/

/-- Per-trade signed PnL contribution under the report's sign convention:
sells add quantity x price, buys subtract it. -/
def signedPnl (t : Trade) : ℚ :=
  match t.side with
  | Side.buy => -(t.quantity * t.price)
  | Side.sell => t.quantity * t.price

/-- Sum of quantity x price over the sell trades of a list. -/
def sumSellQ (l : List Trade) : ℚ :=
  ((l.filter (fun t => t.side == Side.sell)).map
    (fun t => t.quantity * t.price)).sum

/-- Sum of quantity x price over the buy trades of a list. -/
def sumBuyQ (l : List Trade) : ℚ :=
  ((l.filter (fun t => t.side == Side.buy)).map
    (fun t => t.quantity * t.price)).sum

/-- The trades of one trader, delivery day and delivery hour in the store. -/
def tradesAt (db : List Trade) (trader : String) (day : Int) (h : Nat) :
    List Trade :=
  db.filter (fun t =>
    t.trader_id == trader && t.delivery_day == day && t.delivery_hour == h)

/-- The total (never-failing) version of `processTrade`, used to compute the
fold once every delivery hour is known to be in range. -/
def processTradeT (tbl : List HourData) (t : Trade) : List HourData :=
  tbl.set t.delivery_hour
    (updateHour (tbl.getD t.delivery_hour emptyHour) t.quantity t.price t.side
      t.trade_id)

theorem foldlM_processTrade_eq (l : List Trade) : ∀ init : List HourData,
    (∀ t ∈ l, t.delivery_hour < 24) →
    l.foldlM processTrade init = some (l.foldl processTradeT init) := by
  induction l with
  | nil => intro init _; rfl
  | cons t rest ih =>
    intro init hall
    rw [List.foldlM_cons, List.foldl_cons]
    have ht : processTrade init t = some (processTradeT init t) := by
      unfold processTrade processTradeT
      rw [if_pos (hall t (List.mem_cons_self t rest))]
    rw [ht]
    show (Option.some (processTradeT init t)).bind
      (fun s => rest.foldlM processTrade s) = _
    rw [Option.some_bind]
    exact ih (processTradeT init t)
      (fun x hx => hall x (List.mem_cons_of_mem t hx))

theorem length_foldl_processTradeT (l : List Trade) : ∀ init : List HourData,
    (l.foldl processTradeT init).length = init.length := by
  induction l with
  | nil => intro init; rfl
  | cons t rest ih =>
    intro init
    rw [List.foldl_cons, ih]
    exact List.length_set init _ _

theorem getD_set_hour (tbl : List HourData) (i h : Nat) (x : HourData)
    (hi : i < tbl.length) :
    (tbl.set i x).getD h emptyHour =
      if i = h then x else tbl.getD h emptyHour := by
  rw [List.getD_eq_getElem?_getD, List.getElem?_set]
  by_cases h1 : i = h
  · rw [if_pos h1, if_pos hi, if_pos h1]
    rfl
  · rw [if_neg h1, if_neg h1, List.getD_eq_getElem?_getD]

theorem updateHour_pnl (hd : HourData) (q p : ℚ) (sd : Side) (tid : String) :
    (updateHour hd q p sd tid).pnl_eur =
      hd.pnl_eur + (match sd with
        | Side.buy => -(q * p)
        | Side.sell => q * p) := by
  cases sd <;> simp only [updateHour] <;> split_ifs <;> (try simp) <;> (try ring)

theorem foldl_pnl (l : List Trade) : ∀ (init : List HourData) (h : Nat),
    h < init.length → (∀ t ∈ l, t.delivery_hour < init.length) →
    ((l.foldl processTradeT init).getD h emptyHour).pnl_eur =
      (init.getD h emptyHour).pnl_eur +
      ((l.filter (fun t => t.delivery_hour == h)).map signedPnl).sum := by
  induction l with
  | nil => intro init h _ _; simp
  | cons t rest ih =>
    intro init h hh hall
    rw [List.foldl_cons, List.filter_cons]
    have hlen : h < (processTradeT init t).length := by
      unfold processTradeT
      rw [List.length_set]
      exact hh
    have hrest : ∀ x ∈ rest, x.delivery_hour < (processTradeT init t).length := by
      intro x hx
      unfold processTradeT
      rw [List.length_set]
      exact hall x (List.mem_cons_of_mem t hx)
    rw [ih (processTradeT init t) h hlen hrest]
    have hset := getD_set_hour init t.delivery_hour h
      (updateHour (init.getD t.delivery_hour emptyHour) t.quantity t.price
        t.side t.trade_id)
      (hall t (List.mem_cons_self t rest))
    by_cases hth : t.delivery_hour = h
    · rw [if_pos (by rw [hth]; exact beq_self_eq_true h)]
      show ((processTradeT init t).getD h emptyHour).pnl_eur + _ = _
      unfold processTradeT
      rw [hset, if_pos hth, updateHour_pnl, hth]
      rw [List.map_cons, List.sum_cons]
      unfold signedPnl
      ring
    · rw [if_neg (by simpa using hth)]
      show ((processTradeT init t).getD h emptyHour).pnl_eur + _ = _
      unfold processTradeT
      rw [hset, if_neg hth]

theorem foldl_untouched (l : List Trade) : ∀ (init : List HourData),
    (∀ t ∈ l, t.delivery_hour < init.length) →
    ∀ h : Nat, (∀ t ∈ l, t.delivery_hour ≠ h) →
    (l.foldl processTradeT init).getD h emptyHour = init.getD h emptyHour := by
  induction l with
  | nil => intro init _ h _; rfl
  | cons t rest ih =>
    intro init hall h hne
    rw [List.foldl_cons]
    rw [ih (processTradeT init t)
      (fun x hx => by
        unfold processTradeT
        rw [List.length_set]
        exact hall x (List.mem_cons_of_mem t hx))
      h (fun x hx => hne x (List.mem_cons_of_mem t hx))]
    show (processTradeT init t).getD h emptyHour = _
    unfold processTradeT
    rw [getD_set_hour init _ _ _ (hall t (List.mem_cons_self t rest)),
      if_neg (hne t (List.mem_cons_self t rest))]

theorem getD_replicate_hour (n h : Nat) :
    (List.replicate n emptyHour).getD h emptyHour = emptyHour := by
  rw [List.getD_eq_getElem?_getD, List.getElem?_replicate]
  split_ifs <;> rfl

theorem sum_signed_eq (l : List Trade) :
    (l.map signedPnl).sum = sumSellQ l - sumBuyQ l := by
  induction l with
  | nil => simp [sumSellQ, sumBuyQ]
  | cons t rest ih =>
    rw [List.map_cons, List.sum_cons, ih]
    unfold sumSellQ sumBuyQ signedPnl
    cases hs : t.side <;>
      rw [List.filter_cons, List.filter_cons] <;>
      simp [hs] <;> ring

theorem filter_q_hour_eq (db : List Trade) (trader : String) (day : Int)
    (h : Nat) :
    ((db.filter (fun t => t.trader_id == trader && t.delivery_day == day)).filter
      (fun t => t.delivery_hour == h)) = tradesAt db trader day h := by
  rw [List.filter_filter]
  apply List.filter_congr
  intro t _
  cases t.delivery_hour == h <;> cases t.trader_id == trader <;>
    cases t.delivery_day == day <;> rfl

/-- The two synthetic trades of the PnL sign-convention round-trip: buy 10 MW
at 50 and sell 10 MW at 60 in the same delivery hour. -/
def exDbTrades : List Trade :=
  [ { trade_id := "T1_DA_1", trader_id := "trader1", delivery_day := 0
    , delivery_hour := 12, quantity := 10, price := 50, side := Side.buy
    , strategy := "manual", timestamp := 0 }
  , { trade_id := "T2_ID_1", trader_id := "trader1", delivery_day := 0
    , delivery_hour := 12, quantity := 10, price := 60, side := Side.sell
    , strategy := "manual", timestamp := 0 } ]

/-- C6: for every trader and delivery day the aggregator returns a 24-entry
table (one per delivery hour 0-23); every hour's PnL equals the sum of
quantity x price over its sell trades minus the sum over its buy trades, hours
without trades report the all-zero entry, and on the synthetic pair
{buy 10 MW @ 50, sell 10 MW @ 60} the hour's PnL is exactly 100. -/
theorem compute_hourly_pnl_spec :
    (∀ (trader : String) (day : Int) (db : List Trade),
      (∀ t ∈ db, t.delivery_hour < 24) →
      ∃ tbl, compute_hourly_pnl trader day db = some tbl ∧
        tbl.length = 24 ∧
        (∀ h : Nat, h < 24 →
          (tbl.getD h emptyHour).pnl_eur =
            sumSellQ (tradesAt db trader day h) -
              sumBuyQ (tradesAt db trader day h)) ∧
        (∀ h : Nat, h < 24 → tradesAt db trader day h = [] →
          tbl.getD h emptyHour = emptyHour)) ∧
    (∃ tbl, compute_hourly_pnl "trader1" 0 exDbTrades = some tbl ∧
      (tbl.getD 12 emptyHour).pnl_eur = 100) := by
  have main : ∀ (trader : String) (day : Int) (db : List Trade),
      (∀ t ∈ db, t.delivery_hour < 24) →
      ∃ tbl, compute_hourly_pnl trader day db = some tbl ∧
        tbl.length = 24 ∧
        (∀ h : Nat, h < 24 →
          (tbl.getD h emptyHour).pnl_eur =
            sumSellQ (tradesAt db trader day h) -
              sumBuyQ (tradesAt db trader day h)) ∧
        (∀ h : Nat, h < 24 → tradesAt db trader day h = [] →
          tbl.getD h emptyHour = emptyHour) := by
    intro trader day db hall
    have hperm : List.Perm
        ((db.filter (fun t => t.trader_id == trader && t.delivery_day == day)).mergeSort
          (fun a b => a.delivery_hour ≤ b.delivery_hour))
        (db.filter (fun t => t.trader_id == trader && t.delivery_day == day)) :=
      List.mergeSort_perm _ _
    have hallrows : ∀ t ∈ (db.filter
        (fun t => t.trader_id == trader && t.delivery_day == day)).mergeSort
          (fun a b => a.delivery_hour ≤ b.delivery_hour),
        t.delivery_hour < 24 := by
      intro t ht
      exact hall t ((List.mem_filter.1 (hperm.mem_iff.1 ht)).1)
    refine ⟨((db.filter
        (fun t => t.trader_id == trader && t.delivery_day == day)).mergeSort
          (fun a b => a.delivery_hour ≤ b.delivery_hour)).foldl processTradeT
        (List.replicate 24 emptyHour),
      ?_, ?_, ?_, ?_⟩
    · show List.foldlM processTrade (List.replicate 24 emptyHour)
        ((db.filter (fun t => t.trader_id == trader &&
          t.delivery_day == day)).mergeSort
          (fun a b => a.delivery_hour ≤ b.delivery_hour)) = _
      exact foldlM_processTrade_eq _ _ hallrows
    · rw [length_foldl_processTradeT, List.length_replicate]
    · intro h hh
      rw [foldl_pnl _ _ h (by rw [List.length_replicate]; exact hh)
        (fun t ht => by rw [List.length_replicate]; exact hallrows t ht)]
      rw [getD_replicate_hour]
      have hsum : ((List.filter (fun t => t.delivery_hour == h)
            ((db.filter (fun t => t.trader_id == trader &&
              t.delivery_day == day)).mergeSort
              (fun a b => a.delivery_hour ≤ b.delivery_hour))).map signedPnl).sum =
          ((tradesAt db trader day h).map signedPnl).sum := by
        rw [← filter_q_hour_eq db trader day h]
        exact ((hperm.filter (fun t => t.delivery_hour == h)).map signedPnl).sum_eq
      rw [hsum, sum_signed_eq]
      show (0 : ℚ) + _ = _
      ring
    · intro h hh htz
      rw [foldl_untouched _ _
        (fun t ht => by rw [List.length_replicate]; exact hallrows t ht) h ?_,
        getD_replicate_hour]
      intro t ht hth
      have htm : t ∈ tradesAt db trader day h := by
        rw [← filter_q_hour_eq db trader day h]
        apply List.mem_filter.2
        refine ⟨hperm.mem_iff.1 ht, ?_⟩
        rw [beq_iff_eq]
        exact hth
      rw [htz] at htm
      simp at htm
  refine ⟨main, ?_⟩
  rcases main "trader1" 0 exDbTrades (by decide) with ⟨tbl, he, -, hpnl, -⟩
  refine ⟨tbl, he, ?_⟩
  rw [hpnl 12 (by norm_num)]
  have e1 : tradesAt exDbTrades "trader1" 0 12 = exDbTrades := rfl
  rw [e1]
  have e2 : sumSellQ exDbTrades = 10 * 60 + 0 := rfl
  have e3 : sumBuyQ exDbTrades = 10 * 50 + 0 := rfl
  rw [e2, e3]
  norm_num

/-- Witness for C6: the general aggregation theorem applied to the synthetic
two-trade store. -/
theorem compute_hourly_pnl_witness :
    (∀ t ∈ exDbTrades, t.delivery_hour < 24) ∧
    (∃ tbl, compute_hourly_pnl "trader1" 0 exDbTrades = some tbl ∧
      tbl.length = 24 ∧
      (∀ h : Nat, h < 24 →
        (tbl.getD h emptyHour).pnl_eur =
          sumSellQ (tradesAt exDbTrades "trader1" 0 h) -
            sumBuyQ (tradesAt exDbTrades "trader1" 0 h)) ∧
      (∀ h : Nat, h < 24 → tradesAt exDbTrades "trader1" 0 h = [] →
        tbl.getD h emptyHour = emptyHour)) :=
  ⟨by decide, compute_hourly_pnl_spec.1 "trader1" 0 exDbTrades (by decide)⟩

/-- Witness for C4: the concrete threshold examples, taken from the theorem. -/
theorem signal_trichotomy_witness :
    signalOf 0.56 = 1 ∧ signalOf 0.44 = -1 ∧ signalOf 0.5 = 0 ∧
    signalOf 0.55 = 0 ∧ signalOf 0.45 = 0 :=
  ⟨signal_trichotomy.2.1, signal_trichotomy.2.2.1, signal_trichotomy.2.2.2.1,
   signal_trichotomy.2.2.2.2.1, signal_trichotomy.2.2.2.2.2⟩
